import Mathlib

/-!
Verification of the excel_to_json transformation pipeline.

This file gives a shallow embedding of the core of the repository:
`api_transformer.py` (document construction and strict validation),
`field_mapper.py` (column renaming), `json_converter.py` (JSON
serialization and re-parsing), and `curl_generator.py` (call-text
emission with optional Basic authentication), together with theorems
about the embedded definitions.

Modelling conventions:
* Python `None` / `float("nan")` / strings are constructors of `Scalar`;
  a cell value (`Value`) is a scalar or a Python list of scalars.
* A Python `dict` is an association list in insertion order with unique
  keys; insert-or-update (`dictInsert`) models `d[k] = v`.
* Fallible Python code (code that can raise) is embedded in
  `Except Unit`.
* Machine floats are not modelled; numeric cells are embedded as `Int`
  (Python `int`), which `str()` renders in decimal exactly as the Lean
  `toString`.
-/

/-- A Python scalar cell value as it reaches `APITransformer._create_document`:
a string, an int, a bool, `None`, or a float NaN (the `pd.isna` sentinel). -/
inductive Scalar where
  | str (s : String)
  | int (n : Int)
  | bool (b : Bool)
  | noneV
  | nan
deriving Repr, DecidableEq

/-- A cell value: either a scalar or a Python list of scalars
(`_create_document` has a dedicated branch for `isinstance(value, list)`). -/
inductive Value where
  | scalar (s : Scalar)
  | list (vs : List Scalar)
deriving Repr, DecidableEq

/-- A row, as produced by the parser: a Python dict from column name to cell
value, i.e. an ordered association list with unique keys. -/
abbrev Row := List (String × Value)

/-- Parsed data: a Python dict from sheet name to the list of rows of that sheet. -/
abbrev ParsedData := List (String × List Row)

/-- Python `str()` of a scalar: a string renders as itself, an int in decimal,
`True`/`False` for bools, `None` for `None`, `nan` for a float NaN. -/
def Scalar.pyStr : Scalar → String
  | .str s => s
  | .int n => toString n
  | .bool true => "True"
  | .bool false => "False"
  | .noneV => "None"
  | .nan => "nan"

/-- `pandas.isna` on a scalar: true exactly for `None` and NaN. -/
def Scalar.isna : Scalar → Bool
  | .noneV => true
  | .nan => true
  | _ => false

/-- Python `isinstance(value, str) and not value.strip()`: the value is a
string consisting only of whitespace (including the empty string). -/
def Value.isBlankStr : Value → Bool
  | .scalar (.str s) => s.data.all Char.isWhitespace
  | _ => false

/-- Truthiness of the guard on line 85 of `api_transformer.py`:
`value is None or pd.isna(value) or (isinstance(value, str) and not value.strip())`.

For a scalar, `pd.isna` returns a bool. For a Python list, `pd.isna`
returns an elementwise numpy bool array, whose use in boolean context is
only defined for a one-element array (a zero-length or multi-element bool
array raises in boolean context), hence the `.error` cases. -/
def Value.missingTest : Value → Except Unit Bool
  | .scalar s => .ok (s.isna || Value.isBlankStr (.scalar s))
  | .list [v] => .ok v.isna
  | .list _ => .error ()

/-- The guard on line 88 of `api_transformer.py`
(`value is None or (isinstance(value, str) and not value.strip())`),
kept in the embedding even though the `continue` on line 85 makes the branch
it guards unreachable. -/
def Value.fieldNameOnlyTest : Value → Bool
  | .scalar .noneV => true
  | v => v.isBlankStr

/-- A `Field` entry of a document: `fieldName` always, `Values` optional
(the JSON key is `Values` in the source; `values` here). -/
structure FieldEntry where
  fieldName : String
  values : Option (List String)
deriving Repr, DecidableEq

/-- The document structure built by `APITransformer._create_document`. -/
structure Document where
  applicationName : String
  formName : String
  phase : String
  locale : String
  fields : List FieldEntry
deriving Repr, DecidableEq

/-- The run-scoped configuration of `APITransformer` (`application_name`,
`form_name`, `locale`, with the source defaults). -/
structure Config where
  applicationName : String := "ENGINE"
  formName : String := "ENGINE_FIELD_SETTINGS"
  locale : String := "en"
deriving Repr, DecidableEq

/-- The source defaults: `ENGINE`, `ENGINE_FIELD_SETTINGS`, `en`. -/
def defaultConfig : Config := {}

/-- The `Values` list built for a non-missing cell: a Python list renders
elementwise through `str`, a scalar as a one-element list (lines 94-97 of
`api_transformer.py`). -/
def renderValues : Value → List String
  | .list vs => vs.map Scalar.pyStr
  | .scalar s => [s.pyStr]

/-- The body of the `for key, value in row_data.items()` loop of
`_create_document`: missing values are skipped by the `continue` on line 85
(`none`), otherwise a field entry is built; the line-88 branch producing an
entry without `Values` is kept although line 85 makes it unreachable. -/
def fieldEntryOf (key : String) (v : Value) : Except Unit (Option FieldEntry) :=
  match v.missingTest with
  | .error e => .error e
  | .ok true => .ok Option.none
  | .ok false =>
    if v.fieldNameOnlyTest then .ok (some { fieldName := key, values := Option.none })
    else .ok (some { fieldName := key, values := some (renderValues v) })

/-- The full field loop of `_create_document`, in row (dict) order; an
exception raised at a cell aborts the whole loop. -/
def buildFields : Row → Except Unit (List FieldEntry)
  | [] => .ok []
  | (k, v) :: rest =>
    match fieldEntryOf k v with
    | .error e => .error e
    | .ok entry =>
      match buildFields rest with
      | .error e => .error e
      | .ok tail =>
        match entry with
        | some fe => .ok (fe :: tail)
        | Option.none => .ok tail

/-- `APITransformer._create_document`: one document per row, with the
configured `applicationName`/`formName`/`locale`, `phase` always empty, and
the field entries built by the loop above. -/
def createDocument (cfg : Config) (row : Row) : Except Unit Document :=
  match buildFields row with
  | .error e => .error e
  | .ok fs =>
    .ok { applicationName := cfg.applicationName, formName := cfg.formName,
          phase := "", locale := cfg.locale, fields := fs }

/-- Python dict lookup in an association list (first match; keys are unique). -/
def dictGet? (d : List (String × α)) (k : String) : Option α :=
  (d.find? (fun kv => kv.1 == k)).map (fun kv => kv.2)

/-- The `for row in field_rows` loop of `APITransformer.transform_data`:
one document appended per row, in order; an exception aborts the loop. -/
def transformRows (cfg : Config) : List Row → Except Unit (List Document)
  | [] => .ok []
  | r :: rs =>
    match createDocument cfg r with
    | .error e => .error e
    | .ok d =>
      match transformRows cfg rs with
      | .error e => .error e
      | .ok ds => .ok (d :: ds)

/-- `APITransformer.transform_data`: if the sheet is absent the result is the
empty document batch, otherwise one document per row of the sheet.
The returned batch stands for the Python value `{"Document": [...]}`. -/
def transformData (cfg : Config) (parsed : ParsedData) (sheetName : String) :
    Except Unit (List Document) :=
  match dictGet? parsed sheetName with
  | Option.none => .ok []
  | some rows => transformRows cfg rows

/-- A cell is kept by `_create_document` when its missingness test returns
`False` (so the cell yields a field entry). -/
def Value.kept (v : Value) : Bool :=
  match v.missingTest with
  | .ok false => true
  | _ => false

/-! ### field_mapper.py -/

/-- A field-name mapping, as loaded from the mapping file: a Python dict
from source column name to target field name. -/
abbrev Mapping := List (String × String)

/-- Python `self.mapping.get(field_name, field_name)`. -/
def mappingGet (m : Mapping) (k : String) : String :=
  match dictGet? m k with
  | some t => t
  | Option.none => k

/-- Python `d[k] = v` on a dict: update in place when the key exists
(keeping its position), else append at the end. -/
def dictInsert (d : List (String × α)) (k : String) (v : α) : List (String × α) :=
  if d.any (fun kv => kv.1 == k) then
    d.map (fun kv => if kv.1 == k then (k, v) else kv)
  else
    d ++ [(k, v)]

/-- The per-row loop of `FieldMapper.apply_mapping`: build `mapped_row` by
inserting `mapping.get(field_name, field_name) -> field_value` for each
column in order. -/
def mapRow (m : Mapping) (row : Row) : Row :=
  row.foldl (fun acc kv => dictInsert acc (mappingGet m kv.1) kv.2) []

/-- `FieldMapper.apply_mapping`: identity when no mapping is loaded or the
sheet is absent; otherwise replace the rows of the named sheet by their mapped
versions (the sheet keeps its position in the data dict). -/
def applyMapping (m : Mapping) (data : ParsedData) (sheetName : String) : ParsedData :=
  if m.isEmpty then data
  else
    match dictGet? data sheetName with
    | Option.none => data
    | some rows =>
      data.map (fun s => if s.1 == sheetName then (s.1, rows.map (mapRow m)) else s)

/-! ### A model of the Python untyped JSON-like values

`validate_transformed_data`, `json.dumps`/`json.loads` and the curl body
all operate on dynamically typed nested data; `J` is the closed universe of
such values (numbers modelled as `Int`). -/

/-- A JSON-native Python value: `None`, bool, int, str, list, dict. -/
inductive J where
  | null
  | bool (b : Bool)
  | num (n : Int)
  | str (s : String)
  | arr (xs : List J)
  | obj (kvs : List (String × J))
deriving Repr

/-- Python `haystack_part in haystack` for strings: substring containment
(the empty needle is contained in everything). -/
def strContains (haystack needle : String) : Bool :=
  needle == "" || (haystack.splitOn needle).length > 1

/-- Python dict lookup on a `J` object body. -/
def jLookup (kvs : List (String × J)) (k : String) : Option J :=
  (kvs.find? (fun kv => kv.1 == k)).map (fun kv => kv.2)

/-- Python `k in j` for a string `k`: key membership for a dict, element
membership for a list (a non-string element never equals a string),
substring test for a string; for the remaining types `in` raises
`TypeError`. -/
def pyContains (j : J) (k : String) : Except Unit Bool :=
  match j with
  | .obj kvs => .ok (jLookup kvs k).isSome
  | .arr xs => .ok (xs.any (fun x => match x with | .str s => s == k | _ => false))
  | .str s => .ok (strContains s k)
  | _ => .error ()

/-- The per-field-entry checks of `APITransformer.validate_transformed_data`
(lines 143-151): `fieldName` must be present, and a present `Values` must be
a list.  Subscripting a non-dict with a string key raises `TypeError`. -/
def validateField (field : J) : Except Unit Bool :=
  match pyContains field "fieldName" with
  | .error e => .error e
  | .ok false => .ok false
  | .ok true =>
    match pyContains field "Values" with
    | .error e => .error e
    | .ok false => .ok true
    | .ok true =>
      match field with
      | .obj kvs =>
        match jLookup kvs "Values" with
        | some (.arr _) => .ok true
        | some _ => .ok false
        | Option.none => .error ()
      | _ => .error ()

/-- The loop over `doc["Fields"]`: first failing entry decides. -/
def validateFields : List J → Except Unit Bool
  | [] => .ok true
  | f :: rest =>
    match validateField f with
    | .error e => .error e
    | .ok false => .ok false
    | .ok true => validateFields rest

/-- The per-document checks of `validate_transformed_data` (lines 129-141):
all of `applicationName`, `formName`, `Fields` must be present (all three
membership tests are evaluated by the comprehension), `Fields` must be a
list, and every field entry must pass `validateField`. -/
def validateDoc (doc : J) : Except Unit Bool :=
  match pyContains doc "applicationName" with
  | .error e => .error e
  | .ok hasApp =>
    match pyContains doc "formName" with
    | .error e => .error e
    | .ok hasForm =>
      match pyContains doc "Fields" with
      | .error e => .error e
      | .ok hasFields =>
        if hasApp && hasForm && hasFields then
          match doc with
          | .obj kvs =>
            match jLookup kvs "Fields" with
            | some (.arr fs) => validateFields fs
            | some _ => .ok false
            | Option.none => .error ()
          | _ => .error ()
        else .ok false

/-- The loop over the document list: first failing document decides. -/
def validateDocs : List J → Except Unit Bool
  | [] => .ok true
  | d :: rest =>
    match validateDoc d with
    | .error e => .error e
    | .ok false => .ok false
    | .ok true => validateDocs rest

/-- `APITransformer.validate_transformed_data` on a top-level dict:
the `Document` key must be present and hold a list, and every document must
pass the per-document checks. -/
def validateTransformedData (top : List (String × J)) : Except Unit Bool :=
  match jLookup top "Document" with
  | Option.none => .ok false
  | some (.arr docs) => validateDocs docs
  | some _ => .ok false

/-- The JSON-facing image of a field entry: `fieldName` always, `Values`
only when present (matching the dicts built on lines 88-102). -/
def FieldEntry.toJ (fe : FieldEntry) : J :=
  match fe.values with
  | Option.none => .obj [("fieldName", .str fe.fieldName)]
  | some vs => .obj [("fieldName", .str fe.fieldName), ("Values", .arr (vs.map J.str))]

/-- The JSON-facing image of a document (the dict built on lines 75-81). -/
def Document.toJ (d : Document) : J :=
  .obj [("applicationName", .str d.applicationName), ("formName", .str d.formName),
        ("phase", .str d.phase), ("locale", .str d.locale),
        ("Fields", .arr (d.fields.map FieldEntry.toJ))]

/-- The JSON-facing image of a transformed batch: `{"Document": [...]}`. -/
def apiDataToJ (docs : List Document) : List (String × J) :=
  [("Document", .arr (docs.map Document.toJ))]

/-! ### json_converter.py: serialization (a model of `json.dumps(data, indent=n, ensure_ascii=False)`)

The serializer is rendered over `List Char`; `convertToJson` packs the
result into a `String`.  Numbers are ints rendered in decimal; floats are
outside the embedding.  With a numeric `indent`, the Python separators are
`","` after an element and `": "` after a key, every element starts on a
fresh line indented by `indent * level` spaces, and empty containers
render with no inner whitespace. -/

/-- The opening curly brace character. -/
def lbrace : Char := Char.ofNat 123

/-- The closing curly brace character. -/
def rbrace : Char := Char.ofNat 125

/-- The single-quote character (used by the curl command text). -/
def squote : Char := Char.ofNat 39

/-- Decimal digit to character. -/
def digitChar (n : Nat) : Char := Char.ofNat (48 + n)

/-- Lower-case hexadecimal digit to character (as in the `\uXXXX` escapes
emitted by the Python `json` encoder). -/
def hexDigitChar (n : Nat) : Char :=
  if n < 10 then Char.ofNat (48 + n) else Char.ofNat (87 + n)

/-- Decimal rendering of a natural number, most significant digit first
(the rendering used by Python `str()`/`json.dumps` for a non-negative int). -/
def natChars (n : Nat) : List Char :=
  if n < 10 then [digitChar n]
  else natChars (n / 10) ++ [digitChar (n % 10)]
decreasing_by exact Nat.div_lt_self (by omega) (by omega)

/-- Decimal rendering of an int: a leading minus sign for negatives. -/
def intChars : Int → List Char
  | .ofNat n => natChars n
  | .negSucc m => '-' :: natChars (m + 1)

/-- The escaping of one character inside a JSON string literal, following
the Python `json` encoder with `ensure_ascii=False`: only the quote, the
backslash and control characters below 0x20 are escaped (with the usual
short escapes for backspace, tab, newline, form feed, carriage return). -/
def escapeChar (c : Char) : List Char :=
  if c = '"' then ['\\', '"']
  else if c = '\\' then ['\\', '\\']
  else if c = '\n' then ['\\', 'n']
  else if c = '\r' then ['\\', 'r']
  else if c = '\t' then ['\\', 't']
  else if c.toNat = 8 then ['\\', 'b']
  else if c.toNat = 12 then ['\\', 'f']
  else if c.toNat < 32 then
    '\\' :: 'u' :: '0' :: '0' :: [hexDigitChar (c.toNat / 16), hexDigitChar (c.toNat % 16)]
  else [c]

/-- Escape a whole string body. -/
def escapeList (cs : List Char) : List Char := cs.flatMap escapeChar

/-- A JSON string literal: quote, escaped body, quote. -/
def renderString (s : String) : List Char := ('"' :: escapeList s.data) ++ ['"']

/-- Newline followed by the indentation of the given level
(`indent * level` spaces). -/
def newlineIndent (ind lvl : Nat) : List Char := '\n' :: List.replicate (ind * lvl) ' '

mutual

/-- `json.dumps` at indent `ind`, nesting level `lvl`. -/
def renderJ (ind lvl : Nat) : J → List Char
  | .null => 'n' :: ['u', 'l', 'l']
  | .bool true => 't' :: ['r', 'u', 'e']
  | .bool false => 'f' :: ['a', 'l', 's', 'e']
  | .num n => intChars n
  | .str s => renderString s
  | .arr [] => ['[', ']']
  | .arr (x :: xs) =>
    (('[' :: newlineIndent ind (lvl + 1)) ++ renderItems ind (lvl + 1) (x :: xs))
      ++ (newlineIndent ind lvl ++ [']'])
  | .obj [] => [lbrace, rbrace]
  | .obj (kv :: kvs) =>
    ((lbrace :: newlineIndent ind (lvl + 1)) ++ renderMembers ind (lvl + 1) (kv :: kvs))
      ++ (newlineIndent ind lvl ++ [rbrace])

/-- Array elements joined by `","` + newline + indentation. -/
def renderItems (ind lvl : Nat) : List J → List Char
  | [] => []
  | x :: xs =>
    renderJ ind lvl x ++
      (if xs.isEmpty then [] else (',' :: newlineIndent ind lvl) ++ renderItems ind lvl xs)

/-- Object members (`"key": value`) joined by `","` + newline + indentation. -/
def renderMembers (ind lvl : Nat) : List (String × J) → List Char
  | [] => []
  | kv :: kvs =>
    (renderString kv.1 ++ (':' :: ' ' :: renderJ ind lvl kv.2)) ++
      (if kvs.isEmpty then [] else (',' :: newlineIndent ind lvl) ++ renderMembers ind lvl kvs)

end

/-- `JSONConverter.convert_to_json` restricted to JSON-native data: the
custom `default` serializer is never invoked, so the result is exactly
`json.dumps(data, indent=self.indent, ensure_ascii=False)`. -/
def convertToJson (ind : Nat) (j : J) : String := String.mk (renderJ ind 0 j)

/-! ### json_converter.py: re-parsing (a model of `json.loads`)

The parser is a recursive-descent reading of the CPython `json.scanner`
restricted to the fragment the serializer above can emit: ints for
numbers (no fraction or exponent part) and no surrogate escape pairs.
Nesting recursion is paid for with fuel; `jsonLoads` supplies more fuel
than any input can consume. -/

/-- JSON whitespace skipping (space, tab, newline, carriage return). -/
def skipWs : List Char → List Char
  | [] => []
  | c :: r =>
    if c = ' ' || c = '\t' || c = '\n' || c = '\r' then skipWs r else c :: r

/-- Hexadecimal digit value. -/
def hexVal? (c : Char) : Option Nat :=
  if '0' ≤ c ∧ c ≤ '9' then some (c.toNat - 48)
  else if 'a' ≤ c ∧ c ≤ 'f' then some (c.toNat - 87)
  else if 'A' ≤ c ∧ c ≤ 'F' then some (c.toNat - 55)
  else none

/-- The single-character escapes accepted after a backslash. -/
def unescapeChar? (c : Char) : Option Char :=
  if c = '"' then some '"'
  else if c = '\\' then some '\\'
  else if c = '/' then some '/'
  else if c = 'b' then some (Char.ofNat 8)
  else if c = 'f' then some (Char.ofNat 12)
  else if c = 'n' then some '\n'
  else if c = 'r' then some '\r'
  else if c = 't' then some '\t'
  else none

/-- The string scanner (after the opening quote): literal characters up to
the closing quote, escapes after a backslash, `\uXXXX` for an explicit code
point (surrogate pairs are not modelled: the serializer never emits them),
and a hard error on an unescaped control character (strict mode). -/
def parseStringBody : List Char → Option (List Char × List Char)
  | [] => none
  | c :: r =>
    if c = '"' then some ([], r)
    else if c = '\\' then
      match r with
      | [] => none
      | e :: r2 =>
        if e = 'u' then
          match r2 with
          | h1 :: h2 :: h3 :: h4 :: r3 =>
            match hexVal? h1, hexVal? h2, hexVal? h3, hexVal? h4 with
            | some a, some b, some c4, some d =>
              let n := ((a * 16 + b) * 16 + c4) * 16 + d
              if n < 55296 ∨ 57344 ≤ n then
                match parseStringBody r3 with
                | some (cs, rest) => some (Char.ofNat n :: cs, rest)
                | none => none
              else none
            | _, _, _, _ => none
          | _ => none
        else
          match unescapeChar? e with
          | some ch =>
            match parseStringBody r2 with
            | some (cs, rest) => some (ch :: cs, rest)
            | none => none
          | none => none
    else if c.toNat < 32 then none
    else
      match parseStringBody r with
      | some (cs, rest) => some (c :: cs, rest)
      | none => none
termination_by s => s.length
decreasing_by all_goals simp_wf <;> omega

/-- Greedy decimal digit consumption with an accumulator. -/
def parseDigits (acc : Nat) : List Char → Nat × List Char
  | [] => (acc, [])
  | c :: r => if c.isDigit then parseDigits (acc * 10 + (c.toNat - 48)) r else (acc, c :: r)

/-- Number scanning, restricted to the integer fragment the serializer
emits: an optional minus sign followed by at least one digit. -/
def parseNumber (s : List Char) : Option (Int × List Char) :=
  match s with
  | [] => none
  | c :: r =>
    if c = '-' then
      match r with
      | [] => none
      | c2 :: _ =>
        if c2.isDigit then
          let p := parseDigits 0 r
          some (-(p.1 : Int), p.2)
        else none
    else if c.isDigit then
      let p := parseDigits 0 (c :: r)
      some ((p.1 : Int), p.2)
    else none

/-- Python `dict(pairs)`: fold the pairs into a dict, later values of a
repeated key overwriting earlier ones in place. -/
def dictFold (pairs : List (String × J)) : List (String × J) :=
  pairs.foldl (fun acc kv => dictInsert acc kv.1 kv.2) []

mutual

/-- One JSON value: leading whitespace, then dispatch on the first
character; containers hand the remaining input to the element loops. -/
def parseVal : Nat → List Char → Option (J × List Char)
  | 0, _ => none
  | fuel + 1, s =>
    match skipWs s with
    | [] => none
    | c :: r =>
      if c = lbrace then
        match skipWs r with
        | [] => none
        | c2 :: r2 =>
          if c2 = rbrace then some (.obj [], r2)
          else parseMembers fuel (c2 :: r2) []
      else if c = '[' then
        match skipWs r with
        | [] => none
        | c2 :: r2 =>
          if c2 = ']' then some (.arr [], r2)
          else parseItems fuel (c2 :: r2) []
      else if c = '"' then
        match parseStringBody r with
        | some (cs, rest) => some (.str (String.mk cs), rest)
        | none => none
      else if c = 't' then
        match r with
        | 'r' :: 'u' :: 'e' :: rest => some (.bool true, rest)
        | _ => none
      else if c = 'f' then
        match r with
        | 'a' :: 'l' :: 's' :: 'e' :: rest => some (.bool false, rest)
        | _ => none
      else if c = 'n' then
        match r with
        | 'u' :: 'l' :: 'l' :: rest => some (.null, rest)
        | _ => none
      else
        match parseNumber (c :: r) with
        | some (n, rest) => some (.num n, rest)
        | none => none

/-- The array element loop: value, then `,` and the next element or `]`. -/
def parseItems : Nat → List Char → List J → Option (J × List Char)
  | 0, _, _ => none
  | fuel + 1, s, acc =>
    match parseVal fuel s with
    | none => none
    | some (v, r) =>
      match skipWs r with
      | [] => none
      | c :: r2 =>
        if c = ',' then parseItems fuel r2 (acc ++ [v])
        else if c = ']' then some (.arr (acc ++ [v]), r2)
        else none

/-- The object member loop: quoted key, `:`, value, then `,` and the next
member or the closing brace; the collected pairs go through `dict(...)`. -/
def parseMembers : Nat → List Char → List (String × J) → Option (J × List Char)
  | 0, _, _ => none
  | fuel + 1, s, acc =>
    match skipWs s with
    | [] => none
    | c :: r =>
      if c = '"' then
        match parseStringBody r with
        | none => none
        | some (kcs, r2) =>
          match skipWs r2 with
          | [] => none
          | c3 :: r3 =>
            if c3 = ':' then
              match parseVal fuel r3 with
              | none => none
              | some (v, r4) =>
                match skipWs r4 with
                | [] => none
                | c5 :: r5 =>
                  if c5 = ',' then parseMembers fuel r5 (acc ++ [(String.mk kcs, v)])
                  else if c5 = rbrace then
                    some (.obj (dictFold (acc ++ [(String.mk kcs, v)])), r5)
                  else none
            else none
      else none

end

/-- `json.loads`: parse one value and require only whitespace after it. -/
def jsonLoads (s : String) : Option J :=
  match parseVal (s.data.length + 1) s.data with
  | some (j, rest) => if (skipWs rest).isEmpty then some j else none
  | none => none

/-- `JSONConverter.validate_json`: the string parses as JSON. -/
def validateJson (s : String) : Bool := (jsonLoads s).isSome

/-! ### curl_generator.py -/

/-- Python truthiness of the optional username/password strings
(`None` and the empty string are falsy). -/
def optTruthy : Option String → Bool
  | Option.none => false
  | some s => !(s == "")

/-- Python truthiness of a `J` value (`not transformed_data["Document"]`).
Empty containers, `None`, zero and the empty string are falsy. -/
def J.truthy : J → Bool
  | .null => false
  | .bool b => b
  | .num n => !(n == 0)
  | .str s => !(s == "")
  | .arr xs => !xs.isEmpty
  | .obj kvs => !kvs.isEmpty

/-- UTF-8 encoding of one code point (a model of Python `str.encode()`). -/
def utf8EncodeChar (c : Char) : List Nat :=
  let n := c.toNat
  if n < 128 then [n]
  else if n < 2048 then [192 + n / 64, 128 + n % 64]
  else if n < 65536 then [224 + n / 4096, 128 + n / 64 % 64, 128 + n % 64]
  else [240 + n / 262144, 128 + n / 4096 % 64, 128 + n / 64 % 64, 128 + n % 64]

/-- UTF-8 encoding of a string as a byte list. -/
def utf8Encode (s : String) : List Nat := s.data.flatMap utf8EncodeChar

/-- The standard base64 alphabet. -/
def b64Char (n : Nat) : Char :=
  if n < 26 then Char.ofNat (65 + n)
  else if n < 52 then Char.ofNat (97 + (n - 26))
  else if n < 62 then Char.ofNat (48 + (n - 52))
  else if n = 62 then '+'
  else '/'

/-- Base64 encoding of a byte list, three bytes to four characters, with
`=` padding for a final group of one or two bytes. -/
def b64Chunks : List Nat → List Char
  | b1 :: b2 :: b3 :: rest =>
    let w := (b1 * 256 + b2) * 256 + b3
    [b64Char (w / 262144 % 64), b64Char (w / 4096 % 64), b64Char (w / 64 % 64),
     b64Char (w % 64)] ++ b64Chunks rest
  | [b1, b2] =>
    let w := (b1 * 256 + b2) * 4
    [b64Char (w / 4096 % 64), b64Char (w / 64 % 64), b64Char (w % 64), '=']
  | [b1] =>
    let w := b1 * 16
    [b64Char (w / 64 % 64), b64Char (w % 64), '=', '=']
  | [] => []

/-- `base64.b64encode(s.encode()).decode()`. -/
def b64EncodeString (s : String) : String := String.mk (b64Chunks (utf8Encode s))

/-- A single-quote as a string (the shell quoting used by the curl text). -/
def sqs : String := String.singleton squote

/-- The body payload: `json.dumps(data, indent=2)` with every newline
replaced by newline + two spaces (line 79 of `curl_generator.py`). -/
def continuationIndent : List Char → List Char
  | [] => []
  | c :: r =>
    if c = '\n' then '\n' :: ' ' :: ' ' :: continuationIndent r
    else c :: continuationIndent r

/-- The `--data` payload of the curl command: the whole transformed batch
pretty-printed at indent 2, re-indented for shell continuation lines. -/
def curlDataBody (top : List (String × J)) : String :=
  String.mk (continuationIndent (renderJ 2 0 (J.obj top)))

/-- The line list assembled by `CURLGenerator._generate_single_curl_command`:
fixed verb and content type, the optional Basic-Authentication header (only
when both username and password are truthy), then the data payload. -/
def curlParts (endpoint : String) (user pass : Option String)
    (top : List (String × J)) : List String :=
  (["curl", "--url " ++ sqs ++ endpoint ++ sqs, "-X POST",
    "-H " ++ sqs ++ "Content-Type: application/json" ++ sqs]
    ++ (if optTruthy user && optTruthy pass then
          ["-H " ++ sqs ++ "Authorization: Basic " ++
            b64EncodeString ((user.getD "") ++ ":" ++ (pass.getD "")) ++ sqs]
        else [])) ++
    ["--data " ++ sqs ++ curlDataBody top ++ sqs]

/-- The joined call text (lines separated by a backslash continuation). -/
def generateSingleCurlCommand (endpoint : String) (user pass : Option String)
    (top : List (String × J)) : String :=
  String.intercalate (" \\\n  ") (curlParts endpoint user pass top)

/-- `CURLGenerator.generate_curl_commands`: the empty sequence when the
`Document` key is absent or its value falsy (in particular an empty
document list), otherwise exactly one call text for the whole batch. -/
def generateCurlCommands (endpoint : String) (user pass : Option String)
    (top : List (String × J)) : List String :=
  match jLookup top "Document" with
  | Option.none => []
  | some v =>
    if v.truthy then [generateSingleCurlCommand endpoint user pass top] else []

/-- `CURLGenerator.save_curl_commands`, modelled by its written content:
`none` when the command list is empty (no write happens), otherwise the
script text: interpreter line, comment header, then each command under a
numbered comment followed by a blank line. -/
def saveCurlCommands (commands : List String) : Option String :=
  if commands.isEmpty then Option.none
  else
    some ("#!/bin/bash\n# Generated API calls\n\n" ++
      String.join (commands.enum.map
        (fun ic => "# API Call " ++ toString (ic.1 + 1) ++ "\n" ++ ic.2 ++ "\n\n")))

/-! ### Specification-side helpers for the round-trip proof -/

/-- JSON whitespace characters. -/
def isWsChar (c : Char) : Bool := c = ' ' || c = '\t' || c = '\n' || c = '\r'

/-- The first character, if any, is not a decimal digit (the context in
which the greedy number scanner stops exactly at a value boundary). -/
def headNotDigit : List Char → Bool
  | [] => true
  | c :: _ => !c.isDigit

/-- No repeated key in a key list. -/
def nodupKeys : List String → Bool
  | [] => true
  | k :: ks => !(ks.contains k) && nodupKeys ks

mutual

/-- Well-formedness of a `J` value as an image of Python data: every dict
has pairwise distinct keys (guaranteed for data coming from Python dicts). -/
def wfJ : J → Bool
  | .null => true
  | .bool _ => true
  | .num _ => true
  | .str _ => true
  | .arr xs => wfArr xs
  | .obj kvs => nodupKeys (kvs.map Prod.fst) && wfObj kvs

/-- All array elements are well-formed. -/
def wfArr : List J → Bool
  | [] => true
  | x :: xs => wfJ x && wfArr xs

/-- All object values are well-formed. -/
def wfObj : List (String × J) → Bool
  | [] => true
  | kv :: kvs => wfJ kv.2 && wfObj kvs

end

mutual

/-- Fuel budget sufficient for the parser on the rendering of a value. -/
def fuelJ : J → Nat
  | .null => 1
  | .bool _ => 1
  | .num _ => 1
  | .str _ => 1
  | .arr xs => 1 + fuelArr xs
  | .obj kvs => 1 + fuelObj kvs

/-- Fuel budget for an array element loop. -/
def fuelArr : List J → Nat
  | [] => 1
  | x :: xs => fuelJ x + fuelArr xs

/-- Fuel budget for an object member loop. -/
def fuelObj : List (String × J) → Nat
  | [] => 1
  | kv :: kvs => fuelJ kv.2 + fuelObj kvs

end

/-! ## Structural lemmas about the document builder -/

/-- A cell that passes the missingness test with `False` cannot satisfy the
dead guard of line 88: the line-88 branch is unreachable. -/
theorem fieldNameOnlyTest_eq_false {v : Value} (h : v.missingTest = .ok false) :
    v.fieldNameOnlyTest = false := by
  cases v with
  | scalar s =>
    cases s <;>
      simp_all [Value.missingTest, Value.fieldNameOnlyTest, Scalar.isna, Value.isBlankStr]
  | list vs =>
    cases vs with
    | nil => simp [Value.missingTest] at h
    | cons a t =>
      cases t <;> simp_all [Value.missingTest, Value.fieldNameOnlyTest, Value.isBlankStr]

/-- `kept` in terms of the missingness test. -/
theorem kept_eq_true_iff {v : Value} : v.kept = true ↔ v.missingTest = .ok false := by
  unfold Value.kept
  cases h : v.missingTest with
  | error e => simp
  | ok b => cases b <;> simp

/-- A kept cell always renders to a non-empty `Values` list. -/
theorem renderValues_ne_nil {v : Value} (h : v.kept = true) : renderValues v ≠ [] := by
  rw [kept_eq_true_iff] at h
  cases v with
  | scalar s => simp [renderValues]
  | list vs =>
    cases vs with
    | nil => simp [Value.missingTest] at h
    | cons a t =>
      cases t with
      | nil => simp [renderValues]
      | cons b t2 => simp [Value.missingTest] at h

/-- The field entry list a successful build produces: exactly the kept
cells, in row order, each with its rendered `Values`. -/
theorem buildFields_ok {row : Row} {fs : List FieldEntry}
    (h : buildFields row = .ok fs) :
    fs = (row.filter (fun kv => kv.2.kept)).map
      (fun kv => { fieldName := kv.1, values := some (renderValues kv.2) }) := by
  induction row generalizing fs with
  | nil =>
    simp [buildFields] at h
    simp [h.symm]
  | cons kv rest ih =>
    obtain ⟨k, v⟩ := kv
    cases hm : v.missingTest with
    | error e => simp [buildFields, fieldEntryOf, hm] at h
    | ok b =>
      cases hrest : buildFields rest with
      | error e =>
        cases b <;> simp [buildFields, fieldEntryOf, hm, hrest,
          fieldNameOnlyTest_eq_false] at h
      | ok tail =>
        have htail := ih hrest
        have hkept : v.kept = (match v.missingTest with
            | .ok false => true | _ => false) := rfl
        cases b with
        | true =>
          simp [buildFields, fieldEntryOf, hm, hrest] at h
          simp [List.filter, hkept, hm, h.symm, htail]
        | false =>
          simp [buildFields, fieldEntryOf, hm, hrest,
            fieldNameOnlyTest_eq_false hm] at h
          simp [List.filter, hkept, hm, h.symm, htail]

/-- Characterization of a successfully built document. -/
theorem createDocument_ok {cfg : Config} {row : Row} {d : Document}
    (h : createDocument cfg row = .ok d) :
    d.applicationName = cfg.applicationName ∧ d.formName = cfg.formName ∧
    d.phase = "" ∧ d.locale = cfg.locale ∧
    d.fields = (row.filter (fun kv => kv.2.kept)).map
      (fun kv => { fieldName := kv.1, values := some (renderValues kv.2) }) := by
  unfold createDocument at h
  cases hb : buildFields row with
  | error e => rw [hb] at h; cases h
  | ok fs =>
    rw [hb] at h
    cases h
    exact ⟨rfl, rfl, rfl, rfl, buildFields_ok hb⟩

/-- In a dict (association list with no repeated key) a key determines its
value. -/
theorem dict_key_unique {l : List (String × α)} (h : (l.map Prod.fst).Nodup)
    {k : String} {v v' : α} (h1 : (k, v) ∈ l) (h2 : (k, v') ∈ l) : v = v' := by
  induction l with
  | nil => cases h1
  | cons kv rest ih =>
    simp only [List.map_cons, List.nodup_cons] at h
    cases h1 with
    | head =>
      cases h2 with
      | head => rfl
      | tail _ hmem =>
        exact absurd (List.mem_map_of_mem Prod.fst hmem) h.1
    | tail _ hmem1 =>
      cases h2 with
      | head =>
        exact absurd (List.mem_map_of_mem Prod.fst hmem1) h.1
      | tail _ hmem2 => exact ih h.2 hmem1 hmem2

/-- A successful transform builds the documents row by row, in order. -/
theorem transformRows_ok {cfg : Config} {rs : List Row} {ds : List Document}
    (h : transformRows cfg rs = .ok ds) :
    List.Forall₂ (fun r d => createDocument cfg r = .ok d) rs ds := by
  induction rs generalizing ds with
  | nil =>
    simp [transformRows] at h
    simp [h.symm]
  | cons r rest ih =>
    cases hd : createDocument cfg r with
    | error e => simp [transformRows, hd] at h
    | ok d0 =>
      cases hrest : transformRows cfg rest with
      | error e => simp [transformRows, hd, hrest] at h
      | ok ds0 =>
        simp [transformRows, hd, hrest] at h
        cases h
        exact List.Forall₂.cons hd (ih hrest)

/-! ## C1: handling of MissingValue columns -/

/-- C1 counterexample: a row whose single column `a` holds `None` (a
MissingValue) yields a document with an empty `Fields` list — the guard on
line 85 of `api_transformer.py` skips the column entirely, so no
`FieldEntry` carrying `fieldName = "a"` is produced, contradicting the
claim that the column is not dropped. -/
theorem C1_counterexample :
    createDocument defaultConfig [("a", Value.scalar Scalar.noneV)] =
      .ok { applicationName := "ENGINE", formName := "ENGINE_FIELD_SETTINGS",
            phase := "", locale := "en", fields := [] } := rfl

/-- C1 (amended): every column whose value is MissingValue is dropped by
`_create_document`: the `Fields` list is exactly the kept (non-missing)
columns in row order, and, for a well-formed row (no repeated column
names), no field entry carries the name of a missing column. -/
theorem C1_missing_column_dropped (cfg : Config) (row : Row) (d : Document)
    (h : createDocument cfg row = .ok d) :
    d.fields = (row.filter (fun kv => kv.2.kept)).map
      (fun kv => { fieldName := kv.1, values := some (renderValues kv.2) }) ∧
    ((row.map Prod.fst).Nodup → ∀ k v, (k, v) ∈ row → v.kept = false →
      ∀ fe, fe ∈ d.fields → fe.fieldName ≠ k) := by
  have hf := (createDocument_ok h).2.2.2.2
  refine ⟨hf, ?_⟩
  intro hnd k v hmem hkept fe hfe heq
  rw [hf] at hfe
  obtain ⟨kv', hkv'mem, hkv'eq⟩ := List.mem_map.mp hfe
  have hker := List.mem_filter.mp hkv'mem
  have hname : kv'.1 = k := by
    have : fe.fieldName = kv'.1 := by rw [hkv'eq.symm]
    rw [heq] at this
    exact this.symm
  have hvmem : (k, kv'.2) ∈ row := by
    have : kv' = (k, kv'.2) := by
      rw [hname.symm]
    rw [this.symm]
    exact hker.1
  have := dict_key_unique hnd hmem hvmem
  rw [this.symm] at hker
  rw [hker.2] at hkept
  cases hkept

/-- C1 witness: the amended theorem applied to a concrete two-column row
in which column `a` is missing and column `b` is kept. -/
theorem C1_witness :
    (createDocument defaultConfig
        [("a", Value.scalar Scalar.noneV), ("b", Value.scalar (Scalar.str "x"))] =
      .ok (Document.mk "ENGINE" "ENGINE_FIELD_SETTINGS" "" "en"
            [FieldEntry.mk "b" (some ["x"])])) ∧
    ((Document.mk "ENGINE" "ENGINE_FIELD_SETTINGS" "" "en"
        [FieldEntry.mk "b" (some ["x"])]).fields =
      (([("a", Value.scalar Scalar.noneV), ("b", Value.scalar (Scalar.str "x"))] : Row).filter
          (fun kv => kv.2.kept)).map
        (fun kv => { fieldName := kv.1, values := some (renderValues kv.2) }) ∧
    ((([("a", Value.scalar Scalar.noneV),
        ("b", Value.scalar (Scalar.str "x"))] : Row).map Prod.fst).Nodup →
      ∀ k v, (k, v) ∈ ([("a", Value.scalar Scalar.noneV),
        ("b", Value.scalar (Scalar.str "x"))] : Row) → v.kept = false →
      ∀ fe, fe ∈ (Document.mk "ENGINE" "ENGINE_FIELD_SETTINGS" "" "en"
          [FieldEntry.mk "b" (some ["x"])]).fields →
        fe.fieldName ≠ k)) :=
  ⟨rfl, C1_missing_column_dropped defaultConfig _ _ rfl⟩

/-! ## C2: rendering of non-missing cells -/

/-- C2 counterexample: a list-valued cell with two elements does not render
elementwise into a `Values` list — the missingness guard evaluates
`pd.isna` of the list in boolean context, which is only defined for a
one-element array, so document construction raises instead of building the
claimed `FieldEntry`. -/
theorem C2_counterexample :
    createDocument defaultConfig
      [("a", Value.list [Scalar.str "x", Scalar.str "y"])] = .error () := rfl

/-- C2 (amended): whenever document construction succeeds, every kept
(non-missing) column yields a field entry with a present, non-empty
`Values` list equal to its rendering (a scalar renders as a singleton, a
one-element list elementwise), and conversely every field entry of the
document carries a present non-empty `Values` list; list cells with zero
or at least two elements abort construction instead. -/
theorem C2_values_present_nonempty (cfg : Config) (row : Row) (d : Document)
    (h : createDocument cfg row = .ok d) :
    (∀ kv, kv ∈ row → kv.2.kept = true →
      ({ fieldName := kv.1, values := some (renderValues kv.2) } : FieldEntry) ∈ d.fields ∧
        renderValues kv.2 ≠ []) ∧
    (∀ fe, fe ∈ d.fields → ∃ vs, fe.values = some vs ∧ vs ≠ []) := by
  have hf := (createDocument_ok h).2.2.2.2
  constructor
  · intro kv hmem hkept
    refine ⟨?_, renderValues_ne_nil hkept⟩
    rw [hf]
    exact List.mem_map_of_mem _ (List.mem_filter.mpr ⟨hmem, hkept⟩)
  · intro fe hfe
    rw [hf] at hfe
    obtain ⟨kv, hkvmem, hkveq⟩ := List.mem_map.mp hfe
    have hkept := (List.mem_filter.mp hkvmem).2
    refine ⟨renderValues kv.2, ?_, renderValues_ne_nil hkept⟩
    rw [hkveq.symm]

/-- C2 witness: the amended theorem applied to a concrete row holding a
kept scalar, a kept one-element list and a missing cell. -/
theorem C2_witness :
    (createDocument defaultConfig
        [("a", Value.scalar (Scalar.int 3)), ("b", Value.list [Scalar.str "u"]),
         ("c", Value.scalar Scalar.noneV)] =
      .ok (Document.mk "ENGINE" "ENGINE_FIELD_SETTINGS" "" "en"
            [FieldEntry.mk "a" (some ["3"]), FieldEntry.mk "b" (some ["u"])])) ∧
    ((∀ kv, kv ∈ ([("a", Value.scalar (Scalar.int 3)), ("b", Value.list [Scalar.str "u"]),
         ("c", Value.scalar Scalar.noneV)] : Row) → kv.2.kept = true →
      ({ fieldName := kv.1, values := some (renderValues kv.2) } : FieldEntry) ∈
          (Document.mk "ENGINE" "ENGINE_FIELD_SETTINGS" "" "en"
            [FieldEntry.mk "a" (some ["3"]), FieldEntry.mk "b" (some ["u"])]).fields ∧
        renderValues kv.2 ≠ []) ∧
    (∀ fe, fe ∈ (Document.mk "ENGINE" "ENGINE_FIELD_SETTINGS" "" "en"
          [FieldEntry.mk "a" (some ["3"]), FieldEntry.mk "b" (some ["u"])]).fields →
      ∃ vs, fe.values = some vs ∧ vs ≠ [])) :=
  ⟨rfl, C2_values_present_nonempty defaultConfig _ _ rfl⟩

/-! ## C3: order preservation -/

/-- C3: `transform_data` emits one document per row, in row order, and
within each document the field entries follow the column order of the
source row: the sequence of field names is the key sequence of the kept
columns, a subsequence of the full column sequence of the row. -/
theorem C3_order_preservation (cfg : Config) (parsed : ParsedData)
    (sheetName : String) (rows : List Row) (docs : List Document)
    (hrows : dictGet? parsed sheetName = some rows)
    (h : transformData cfg parsed sheetName = .ok docs) :
    docs.length = rows.length ∧
    (∀ i (hi : i < rows.length) (hd : i < docs.length),
      createDocument cfg (rows.get ⟨i, hi⟩) = .ok (docs.get ⟨i, hd⟩) ∧
      (docs.get ⟨i, hd⟩).fields.map FieldEntry.fieldName =
        ((rows.get ⟨i, hi⟩).filter (fun kv => kv.2.kept)).map Prod.fst ∧
      List.Sublist ((docs.get ⟨i, hd⟩).fields.map FieldEntry.fieldName)
        ((rows.get ⟨i, hi⟩).map Prod.fst)) := by
  unfold transformData at h
  rw [hrows] at h
  have hall := transformRows_ok h
  obtain ⟨hlen, hget⟩ := List.forall₂_iff_get.mp hall
  refine ⟨hlen.symm, ?_⟩
  intro i hi hd
  have hcd := hget i hi hd
  have hnames : (docs.get ⟨i, hd⟩).fields.map FieldEntry.fieldName =
      ((rows.get ⟨i, hi⟩).filter (fun kv => kv.2.kept)).map Prod.fst := by
    rw [(createDocument_ok hcd).2.2.2.2, List.map_map]
    rfl
  refine ⟨hcd, hnames, ?_⟩
  rw [hnames]
  exact (List.filter_sublist _).map Prod.fst

/-- C3 witness: the theorem applied to a concrete two-row sheet and
projected to its second row (which has a missing middle column: the
field-name sequence keeps the order of the remaining columns). -/
theorem C3_witness :
    createDocument defaultConfig
        [("a", Value.scalar (Scalar.int 2)), ("m", Value.scalar Scalar.nan),
         ("z", Value.scalar (Scalar.bool true))] =
      .ok (Document.mk "ENGINE" "ENGINE_FIELD_SETTINGS" "" "en"
            [FieldEntry.mk "a" (some ["2"]), FieldEntry.mk "z" (some ["True"])]) ∧
    (Document.mk "ENGINE" "ENGINE_FIELD_SETTINGS" "" "en"
        [FieldEntry.mk "a" (some ["2"]),
         FieldEntry.mk "z" (some ["True"])]).fields.map FieldEntry.fieldName =
      (([("a", Value.scalar (Scalar.int 2)), ("m", Value.scalar Scalar.nan),
         ("z", Value.scalar (Scalar.bool true))] : Row).filter
        (fun kv => kv.2.kept)).map Prod.fst ∧
    List.Sublist ((Document.mk "ENGINE" "ENGINE_FIELD_SETTINGS" "" "en"
        [FieldEntry.mk "a" (some ["2"]),
         FieldEntry.mk "z" (some ["True"])]).fields.map FieldEntry.fieldName)
      (([("a", Value.scalar (Scalar.int 2)), ("m", Value.scalar Scalar.nan),
         ("z", Value.scalar (Scalar.bool true))] : Row).map Prod.fst) :=
  (C3_order_preservation defaultConfig
    [("fields",
      [[("a", Value.scalar (Scalar.int 1)), ("b", Value.scalar (Scalar.str "s"))],
       [("a", Value.scalar (Scalar.int 2)), ("m", Value.scalar Scalar.nan),
        ("z", Value.scalar (Scalar.bool true))]])] "fields"
    [[("a", Value.scalar (Scalar.int 1)), ("b", Value.scalar (Scalar.str "s"))],
     [("a", Value.scalar (Scalar.int 2)), ("m", Value.scalar Scalar.nan),
      ("z", Value.scalar (Scalar.bool true))]]
    [Document.mk "ENGINE" "ENGINE_FIELD_SETTINGS" "" "en"
      [FieldEntry.mk "a" (some ["1"]), FieldEntry.mk "b" (some ["s"])],
     Document.mk "ENGINE" "ENGINE_FIELD_SETTINGS" "" "en"
      [FieldEntry.mk "a" (some ["2"]), FieldEntry.mk "z" (some ["True"])]]
    rfl rfl).2 1 (by decide) (by decide)

/-! ## C4: field mapping -/

/-- If a key is not among the dict keys, Python `d[k] = v` appends. -/
theorem dictInsert_of_not_mem {d : List (String × α)} {k : String} (v : α)
    (h : k ∉ d.map Prod.fst) : dictInsert d k v = d ++ [(k, v)] := by
  unfold dictInsert
  have : d.any (fun kv => kv.1 == k) = false := by
    rw [List.any_eq_false]
    intro kv hkv
    simp only [beq_iff_eq]
    intro he
    exact h (he ▸ List.mem_map_of_mem Prod.fst hkv)
  rw [this]
  simp

/-- The row-mapping fold, run from an accumulator whose keys avoid every
target of the remaining columns: it appends the renamed columns. -/
theorem mapRow_aux (m : Mapping) (row : Row) (acc : Row)
    (hnd : (row.map (fun kv => mappingGet m kv.1)).Nodup)
    (hdisj : ∀ kv, kv ∈ row → mappingGet m kv.1 ∉ acc.map Prod.fst) :
    row.foldl (fun a kv => dictInsert a (mappingGet m kv.1) kv.2) acc =
      acc ++ row.map (fun kv => (mappingGet m kv.1, kv.2)) := by
  induction row generalizing acc with
  | nil => simp
  | cons kv rest ih =>
    simp only [List.foldl_cons]
    rw [dictInsert_of_not_mem kv.2 (hdisj kv (List.mem_cons_self kv rest))]
    rw [List.map_cons, List.nodup_cons] at hnd
    rw [ih (acc ++ [(mappingGet m kv.1, kv.2)]) hnd.2]
    · simp
    · intro kv2 hkv2
      rw [List.map_append, List.mem_append]
      rintro (hin | hsingle)
      · exact hdisj kv2 (List.mem_cons_of_mem kv hkv2) hin
      · simp only [List.map_cons, List.map_nil, List.mem_singleton] at hsingle
        exact hnd.1 (hsingle ▸ List.mem_map_of_mem (fun kv => mappingGet m kv.1) hkv2)

/-- C4 counterexample: with the non-injective mapping
`a -> X, b -> X` and the row `a: 1, b: 2`, the mapped row is the single
column `X: 2` — the value `1` is lost and the column count shrinks, so the
mapped row is not the source row with each key replaced by
`mapping.get(key, key)` and every value kept. -/
theorem C4_counterexample :
    mapRow [("a", "X"), ("b", "X")]
        [("a", Value.scalar (Scalar.int 1)), ("b", Value.scalar (Scalar.int 2))] =
      [("X", Value.scalar (Scalar.int 2))] ∧
    mapRow [("a", "X"), ("b", "X")]
        [("a", Value.scalar (Scalar.int 1)), ("b", Value.scalar (Scalar.int 2))] ≠
      ([("a", Value.scalar (Scalar.int 1)),
        ("b", Value.scalar (Scalar.int 2))] : Row).map
        (fun kv => (mappingGet [("a", "X"), ("b", "X")] kv.1, kv.2)) :=
  ⟨rfl, by decide⟩

/-- C4 (amended): `apply_mapping` returns its input unchanged when the
mapping is empty or the named sheet is absent; and when the targets
`mapping.get(key, key)` of the columns of a row are pairwise distinct
(in particular under any injective mapping with targets disjoint from
unmapped keys), the mapped row is exactly the source row with each key
replaced by its target, values and order unchanged.  When two columns of a
row share a target, the later column overwrites the value of the earlier
one at its original position (see the counterexample). -/
theorem C4_apply_mapping (m : Mapping) (data : ParsedData) (sheetName : String) :
    (m = [] → applyMapping m data sheetName = data) ∧
    (dictGet? data sheetName = Option.none → applyMapping m data sheetName = data) ∧
    (∀ rows, dictGet? data sheetName = some rows → m ≠ [] →
      applyMapping m data sheetName =
        data.map (fun s => if s.1 == sheetName then (s.1, rows.map (mapRow m)) else s)) ∧
    (∀ row : Row, (row.map (fun kv => mappingGet m kv.1)).Nodup →
      mapRow m row = row.map (fun kv => (mappingGet m kv.1, kv.2))) := by
  refine ⟨?_, ?_, ?_, ?_⟩
  · intro hm
    simp [applyMapping, hm]
  · intro habs
    unfold applyMapping
    by_cases hm : m.isEmpty <;> simp [hm, habs]
  · intro rows hrows hm
    have : m.isEmpty = false := by
      cases m with
      | nil => exact absurd rfl hm
      | cons a t => rfl
    simp [applyMapping, this, hrows]
  · intro row hnd
    unfold mapRow
    rw [mapRow_aux m row [] hnd (by intro kv _ h; cases h)]
    simp

/-- C4 witness: the theorem applied to the mapping `a -> X` and the row
`a: 1, b: 2` of the spec example (targets `X`, `b` are distinct). -/
theorem C4_witness :
    mapRow [("a", "X")]
        [("a", Value.scalar (Scalar.int 1)), ("b", Value.scalar (Scalar.int 2))] =
      ([("a", Value.scalar (Scalar.int 1)),
        ("b", Value.scalar (Scalar.int 2))] : Row).map
        (fun kv => (mappingGet [("a", "X")] kv.1, kv.2)) :=
  (C4_apply_mapping [("a", "X")] [] "fields").2.2.2 _ (by decide)

/-! ## C5: strict validation rejects malformed input -/

/-- `validateDoc` on a dict document, in terms of key lookups. -/
theorem validateDoc_obj (kvs : List (String × J)) :
    validateDoc (J.obj kvs) =
      (if (jLookup kvs "applicationName").isSome && (jLookup kvs "formName").isSome &&
          (jLookup kvs "Fields").isSome then
        match jLookup kvs "Fields" with
        | some (.arr fs) => validateFields fs
        | some _ => .ok false
        | Option.none => .error ()
      else .ok false) := rfl

/-- A prefix of documents that all validate does not affect the outcome of
the document loop on the remainder. -/
theorem validateDocs_append_of_ok {pre : List J}
    (hpre : ∀ d, d ∈ pre → validateDoc d = .ok true) (rest : List J) :
    validateDocs (pre ++ rest) = validateDocs rest := by
  induction pre with
  | nil => rfl
  | cons d t ih =>
    have hd := hpre d (List.mem_cons_self d t)
    simp only [List.cons_append, validateDocs, hd]
    exact ih (fun x hx => hpre x (List.mem_cons_of_mem d hx))

/-- A prefix of field entries that all validate does not affect the outcome
of the field loop on the remainder. -/
theorem validateFields_append_of_ok {pre : List J}
    (hpre : ∀ g, g ∈ pre → validateField g = .ok true) (rest : List J) :
    validateFields (pre ++ rest) = validateFields rest := by
  induction pre with
  | nil => rfl
  | cons g t ih =>
    have hg := hpre g (List.mem_cons_self g t)
    simp only [List.cons_append, validateFields, hg]
    exact ih (fun x hx => hpre x (List.mem_cons_of_mem g hx))

/-- C5: each malformation independently makes the strict validation gate
report failure: a missing top-level `Document` key; a non-list `Document`
value; a document (reached by the loop) missing one of `applicationName`,
`formName`, `Fields`; a non-list `Fields`; a field entry (reached by the
loop) without `fieldName`; a present non-list `Values`. -/
theorem C5_validation_rejects (top : List (String × J)) :
    (jLookup top "Document" = Option.none → validateTransformedData top = .ok false) ∧
    (∀ v, jLookup top "Document" = some v → (∀ xs, v ≠ J.arr xs) →
      validateTransformedData top = .ok false) ∧
    (∀ pre kvs post, jLookup top "Document" = some (J.arr (pre ++ J.obj kvs :: post)) →
      (∀ d, d ∈ pre → validateDoc d = .ok true) →
      (jLookup kvs "applicationName" = Option.none ∨
       jLookup kvs "formName" = Option.none ∨
       jLookup kvs "Fields" = Option.none) →
      validateTransformedData top = .ok false) ∧
    (∀ pre kvs post fv, jLookup top "Document" = some (J.arr (pre ++ J.obj kvs :: post)) →
      (∀ d, d ∈ pre → validateDoc d = .ok true) →
      jLookup kvs "applicationName" ≠ Option.none →
      jLookup kvs "formName" ≠ Option.none →
      jLookup kvs "Fields" = some fv → (∀ xs, fv ≠ J.arr xs) →
      validateTransformedData top = .ok false) ∧
    (∀ pre kvs post fpre f fpost,
      jLookup top "Document" = some (J.arr (pre ++ J.obj kvs :: post)) →
      (∀ d, d ∈ pre → validateDoc d = .ok true) →
      jLookup kvs "applicationName" ≠ Option.none →
      jLookup kvs "formName" ≠ Option.none →
      jLookup kvs "Fields" = some (J.arr (fpre ++ f :: fpost)) →
      (∀ g, g ∈ fpre → validateField g = .ok true) →
      pyContains f "fieldName" = .ok false →
      validateTransformedData top = .ok false) ∧
    (∀ pre kvs post fpre fkvs fpost vv,
      jLookup top "Document" = some (J.arr (pre ++ J.obj kvs :: post)) →
      (∀ d, d ∈ pre → validateDoc d = .ok true) →
      jLookup kvs "applicationName" ≠ Option.none →
      jLookup kvs "formName" ≠ Option.none →
      jLookup kvs "Fields" = some (J.arr (fpre ++ J.obj fkvs :: fpost)) →
      (∀ g, g ∈ fpre → validateField g = .ok true) →
      jLookup fkvs "fieldName" ≠ Option.none →
      jLookup fkvs "Values" = some vv → (∀ xs, vv ≠ J.arr xs) →
      validateTransformedData top = .ok false) := by
  refine ⟨?_, ?_, ?_, ?_, ?_, ?_⟩
  · intro h
    simp [validateTransformedData, h]
  · intro v hl hna
    cases v with
    | arr xs => exact absurd rfl (hna xs)
    | null => simp [validateTransformedData, hl]
    | bool b => simp [validateTransformedData, hl]
    | num n => simp [validateTransformedData, hl]
    | str s => simp [validateTransformedData, hl]
    | obj kvs => simp [validateTransformedData, hl]
  · intro pre kvs post hl hpre hmiss
    have hdoc : validateDoc (J.obj kvs) = .ok false := by
      rw [validateDoc_obj]
      rcases hmiss with h | h | h <;> simp [h]
    simp [validateTransformedData, hl, validateDocs_append_of_ok hpre, validateDocs, hdoc]
  · intro pre kvs post fv hl hpre h1 h2 hf hna
    have hdoc : validateDoc (J.obj kvs) = .ok false := by
      rw [validateDoc_obj]
      rw [Option.ne_none_iff_isSome] at h1 h2
      rw [hf]
      simp only [h1, h2, Option.isSome_some, Bool.and_self, if_true]
    simp [validateTransformedData, hl, validateDocs_append_of_ok hpre, validateDocs, hdoc]
  · intro pre kvs post fpre f fpost hl hpre h1 h2 hf hfpre hfn
    have hfield : validateField f = .ok false := by
      simp [validateField, hfn]
    have hdoc : validateDoc (J.obj kvs) = .ok false := by
      rw [validateDoc_obj]
      rw [Option.ne_none_iff_isSome] at h1 h2
      rw [hf]
      simp only [h1, h2, Option.isSome_some, Bool.and_self, if_true]
      simp [validateFields_append_of_ok hfpre, validateFields, hfield]
    simp [validateTransformedData, hl, validateDocs_append_of_ok hpre, validateDocs, hdoc]
  · intro pre kvs post fpre fkvs fpost vv hl hpre h1 h2 hf hfpre hfn hvv hna
    have hfield : validateField (J.obj fkvs) = .ok false := by
      rw [Option.ne_none_iff_isSome] at hfn
      simp only [validateField, pyContains, hfn, hvv, Option.isSome_some]
    have hdoc : validateDoc (J.obj kvs) = .ok false := by
      rw [validateDoc_obj]
      rw [Option.ne_none_iff_isSome] at h1 h2
      rw [hf]
      simp only [h1, h2, Option.isSome_some, Bool.and_self, if_true]
      simp [validateFields_append_of_ok hfpre, validateFields, hfield]
    simp [validateTransformedData, hl, validateDocs_append_of_ok hpre, validateDocs, hdoc]

/-- C5 witness: the six rejection clauses applied at concrete payloads:
no `Document` key, a numeric `Document`, a document missing `formName`,
a numeric `Fields`, a field entry without `fieldName`, and a string-valued
`Values`. -/
theorem C5_witness :
    validateTransformedData [("X", J.null)] = .ok false ∧
    validateTransformedData [("Document", J.num 3)] = .ok false ∧
    validateTransformedData
      [("Document", J.arr [J.obj [("applicationName", J.str "a")]])] = .ok false ∧
    validateTransformedData
      [("Document", J.arr [J.obj [("applicationName", J.str "a"),
        ("formName", J.str "f"), ("Fields", J.num 0)]])] = .ok false ∧
    validateTransformedData
      [("Document", J.arr [J.obj [("applicationName", J.str "a"),
        ("formName", J.str "f"),
        ("Fields", J.arr [J.obj [("x", J.null)]])]])] = .ok false ∧
    validateTransformedData
      [("Document", J.arr [J.obj [("applicationName", J.str "a"),
        ("formName", J.str "f"),
        ("Fields", J.arr [J.obj [("fieldName", J.str "n"),
          ("Values", J.str "v")]])]])] = .ok false :=
  ⟨(C5_validation_rejects [("X", J.null)]).1 rfl,
   (C5_validation_rejects [("Document", J.num 3)]).2.1 (J.num 3) rfl
     (fun _ h => nomatch h),
   (C5_validation_rejects [("Document", J.arr [J.obj [("applicationName",
       J.str "a")]])]).2.2.1 [] [("applicationName", J.str "a")] [] rfl
     (fun _ hd => nomatch hd) (Or.inr (Or.inl rfl)),
   (C5_validation_rejects [("Document", J.arr [J.obj [("applicationName", J.str "a"),
       ("formName", J.str "f"), ("Fields", J.num 0)]])]).2.2.2.1 []
     [("applicationName", J.str "a"), ("formName", J.str "f"), ("Fields", J.num 0)] []
     (J.num 0) rfl (fun _ hd => nomatch hd)
     (fun h => Option.noConfusion h) (fun h => Option.noConfusion h) rfl
     (fun _ h => nomatch h),
   (C5_validation_rejects [("Document", J.arr [J.obj [("applicationName", J.str "a"),
       ("formName", J.str "f"),
       ("Fields", J.arr [J.obj [("x", J.null)]])]])]).2.2.2.2.1 []
     [("applicationName", J.str "a"), ("formName", J.str "f"),
      ("Fields", J.arr [J.obj [("x", J.null)]])] []
     [] (J.obj [("x", J.null)]) [] rfl (fun _ hd => nomatch hd)
     (fun h => Option.noConfusion h) (fun h => Option.noConfusion h) rfl
     (fun _ hg => nomatch hg) rfl,
   (C5_validation_rejects [("Document", J.arr [J.obj [("applicationName", J.str "a"),
       ("formName", J.str "f"),
       ("Fields", J.arr [J.obj [("fieldName", J.str "n"),
         ("Values", J.str "v")]])]])]).2.2.2.2.2 []
     [("applicationName", J.str "a"), ("formName", J.str "f"),
      ("Fields", J.arr [J.obj [("fieldName", J.str "n"), ("Values", J.str "v")]])] []
     [] [("fieldName", J.str "n"), ("Values", J.str "v")] [] (J.str "v") rfl
     (fun _ hd => nomatch hd)
     (fun h => Option.noConfusion h) (fun h => Option.noConfusion h) rfl
     (fun _ hg => nomatch hg) (fun h => Option.noConfusion h) rfl
     (fun _ h => nomatch h)⟩

/-! ## C9: the builder output always passes the strict gate -/

/-- Every field entry the builder emits validates. -/
theorem validateField_toJ (fe : FieldEntry) : validateField fe.toJ = .ok true := by
  cases fe with
  | mk name vals =>
    cases vals with
    | none => rfl
    | some vs => rfl

/-- Every emitted `Fields` list validates entry by entry. -/
theorem validateFields_toJ (fs : List FieldEntry) :
    validateFields (fs.map FieldEntry.toJ) = .ok true := by
  induction fs with
  | nil => rfl
  | cons f t ih => simp [validateFields, validateField_toJ, ih]

/-- Every document the builder emits validates. -/
theorem validateDoc_toJ (d : Document) : validateDoc d.toJ = .ok true := by
  cases d with
  | mk a f p l fs =>
    simp [Document.toJ, validateDoc_obj, jLookup, List.find?, validateFields_toJ]

/-- Every emitted document batch validates document by document. -/
theorem validateDocs_toJ (docs : List Document) :
    validateDocs (docs.map Document.toJ) = .ok true := by
  induction docs with
  | nil => rfl
  | cons d t ih => simp [validateDocs, validateDoc_toJ, ih]

/-- C9: whatever parsed data and sheet name the transform is given, any
batch it successfully builds passes `validate_transformed_data`: the
builder can never produce output its own strict gate rejects. -/
theorem C9_transform_output_validates (cfg : Config) (parsed : ParsedData)
    (sheetName : String) (docs : List Document)
    (_h : transformData cfg parsed sheetName = .ok docs) :
    validateTransformedData (apiDataToJ docs) = .ok true := by
  simp [validateTransformedData, apiDataToJ, jLookup, List.find?, validateDocs_toJ]

/-- C9 witness: the theorem applied to a concrete one-row transform. -/
theorem C9_witness :
    (transformData defaultConfig [("fields", [[("a", Value.scalar (Scalar.int 1))]])]
        "fields" =
      .ok [Document.mk "ENGINE" "ENGINE_FIELD_SETTINGS" "" "en"
            [FieldEntry.mk "a" (some ["1"])]]) ∧
    validateTransformedData (apiDataToJ
      [Document.mk "ENGINE" "ENGINE_FIELD_SETTINGS" "" "en"
        [FieldEntry.mk "a" (some ["1"])]]) = .ok true :=
  ⟨rfl, C9_transform_output_validates defaultConfig
    [("fields", [[("a", Value.scalar (Scalar.int 1))]])] "fields" _ rfl⟩

/-! ## C10: the gate accepts an empty present Values list -/

/-- C10: the strict validation accepts a payload whose field entry carries
`Values: []` — a present `Values` need only be a list, not non-empty, so
the gate is strictly weaker than the documented invariant set. -/
theorem C10_empty_values_accepted :
    validateTransformedData
      [("Document", J.arr [J.obj [("applicationName", J.str "a"),
        ("formName", J.str "f"),
        ("Fields", J.arr [J.obj [("fieldName", J.str "n"),
          ("Values", J.arr [])]])]])] = .ok true := rfl

/-! ## C7: one call per batch; no write for an empty command list -/

/-- C7: the emitter returns the empty sequence when the `Document` list is
empty (or the key is absent or falsy), and otherwise exactly one call text
for the entire batch — never one call per document; saving an empty
command sequence writes nothing. -/
theorem C7_single_call (endpoint : String) (user pass : Option String)
    (top : List (String × J)) :
    (jLookup top "Document" = some (J.arr []) →
      generateCurlCommands endpoint user pass top = []) ∧
    (jLookup top "Document" = Option.none →
      generateCurlCommands endpoint user pass top = []) ∧
    (∀ v, jLookup top "Document" = some v → v.truthy = false →
      generateCurlCommands endpoint user pass top = []) ∧
    (∀ docs, jLookup top "Document" = some (J.arr docs) → docs ≠ [] →
      generateCurlCommands endpoint user pass top =
        [generateSingleCurlCommand endpoint user pass top]) ∧
    saveCurlCommands [] = Option.none := by
  refine ⟨?_, ?_, ?_, ?_, rfl⟩
  · intro h
    simp [generateCurlCommands, h, J.truthy]
  · intro h
    simp [generateCurlCommands, h]
  · intro v h ht
    simp [generateCurlCommands, h, ht]
  · intro docs h hne
    have : (J.arr docs).truthy = true := by
      simp [J.truthy, List.isEmpty_iff, hne]
    simp [generateCurlCommands, h, this]

/-- C7 witness: the theorem applied to an empty and to a one-document
batch. -/
theorem C7_witness :
    generateCurlCommands "http://e" (some "u") (some "p")
      [("Document", J.arr [])] = [] ∧
    generateCurlCommands "http://e" (some "u") (some "p")
        [("Document", J.arr [J.obj []])] =
      [generateSingleCurlCommand "http://e" (some "u") (some "p")
        [("Document", J.arr [J.obj []])]] ∧
    saveCurlCommands [] = Option.none :=
  ⟨(C7_single_call "http://e" (some "u") (some "p")
      [("Document", J.arr [])]).1 rfl,
   (C7_single_call "http://e" (some "u") (some "p")
      [("Document", J.arr [J.obj []])]).2.2.2.1 [J.obj []] rfl
     (fun h => nomatch h),
   (C7_single_call "http://e" Option.none Option.none []).2.2.2.2⟩

/-! ## C8: the Basic-Authentication header -/

/-- C8: the emitted call text carries the Basic-Authentication line exactly
when both username and password are non-empty, and its credential is the
base64 encoding of `username:password`; with either credential empty or
absent the line list is the same minus that one line. -/
theorem C8_basic_auth (endpoint : String) (user pass : Option String)
    (top : List (String × J)) :
    ((optTruthy user && optTruthy pass) = true →
      curlParts endpoint user pass top =
        ["curl", "--url " ++ sqs ++ endpoint ++ sqs, "-X POST",
         "-H " ++ sqs ++ "Content-Type: application/json" ++ sqs,
         "-H " ++ sqs ++ "Authorization: Basic " ++
           b64EncodeString ((user.getD "") ++ ":" ++ (pass.getD "")) ++ sqs,
         "--data " ++ sqs ++ curlDataBody top ++ sqs]) ∧
    ((optTruthy user && optTruthy pass) = false →
      curlParts endpoint user pass top =
        ["curl", "--url " ++ sqs ++ endpoint ++ sqs, "-X POST",
         "-H " ++ sqs ++ "Content-Type: application/json" ++ sqs,
         "--data " ++ sqs ++ curlDataBody top ++ sqs]) ∧
    generateSingleCurlCommand endpoint user pass top =
      String.intercalate (" \\\n  ") (curlParts endpoint user pass top) := by
  refine ⟨?_, ?_, rfl⟩
  · intro h
    simp [curlParts, h]
  · intro h
    simp [curlParts, h]

/-- C8 witness: the theorem applied with both credentials present
(`user`/`pass`), with the password empty, and with the username absent;
the concrete credential encodes to `dXNlcjpwYXNz`. -/
theorem C8_witness :
    curlParts "http://e" (some "user") (some "pass") [("Document", J.arr [])] =
      ["curl", "--url " ++ sqs ++ "http://e" ++ sqs, "-X POST",
       "-H " ++ sqs ++ "Content-Type: application/json" ++ sqs,
       "-H " ++ sqs ++ "Authorization: Basic " ++
         b64EncodeString (((some "user").getD "") ++ ":" ++ ((some "pass").getD "")) ++ sqs,
       "--data " ++ sqs ++ curlDataBody [("Document", J.arr [])] ++ sqs] ∧
    b64EncodeString "user:pass" = "dXNlcjpwYXNz" ∧
    curlParts "http://e" (some "user") (some "") [("Document", J.arr [])] =
      ["curl", "--url " ++ sqs ++ "http://e" ++ sqs, "-X POST",
       "-H " ++ sqs ++ "Content-Type: application/json" ++ sqs,
       "--data " ++ sqs ++ curlDataBody [("Document", J.arr [])] ++ sqs] ∧
    curlParts "http://e" Option.none (some "pass") [("Document", J.arr [])] =
      ["curl", "--url " ++ sqs ++ "http://e" ++ sqs, "-X POST",
       "-H " ++ sqs ++ "Content-Type: application/json" ++ sqs,
       "--data " ++ sqs ++ curlDataBody [("Document", J.arr [])] ++ sqs] :=
  ⟨(C8_basic_auth "http://e" (some "user") (some "pass")
      [("Document", J.arr [])]).1 rfl,
   rfl,
   (C8_basic_auth "http://e" (some "user") (some "")
      [("Document", J.arr [])]).2.1 rfl,
   (C8_basic_auth "http://e" Option.none (some "pass")
      [("Document", J.arr [])]).2.1 rfl⟩

/-! ## Round-trip lemmas: whitespace and characters -/

/-- Unfolding of `skipWs` on a cons cell. -/
theorem skipWs_cons (c : Char) (r : List Char) :
    skipWs (c :: r) = if isWsChar c then skipWs r else c :: r := rfl

/-- Skipping whitespace passes over any all-whitespace prefix. -/
theorem skipWs_append_of_ws {ws : List Char} (h : ∀ c, c ∈ ws → isWsChar c = true)
    (s : List Char) : skipWs (ws ++ s) = skipWs s := by
  induction ws with
  | nil => rfl
  | cons c t ih =>
    rw [List.cons_append, skipWs_cons, if_pos (h c (List.mem_cons_self c t))]
    exact ih (fun x hx => h x (List.mem_cons_of_mem c hx))

/-- Skipping whitespace stops at a non-whitespace character. -/
theorem skipWs_cons_of_not_ws {c : Char} (h : isWsChar c = false) (r : List Char) :
    skipWs (c :: r) = c :: r := by
  rw [skipWs_cons, if_neg]
  simp [h]

/-- A newline-plus-indentation prefix is all whitespace. -/
theorem newlineIndent_ws (ind lvl : Nat) :
    ∀ c, c ∈ newlineIndent ind lvl → isWsChar c = true := by
  intro c hc
  unfold newlineIndent at hc
  rcases List.mem_cons.mp hc with h | h
  · rw [h]; rfl
  · rw [List.eq_of_mem_replicate h]; rfl

/-- Skipping whitespace after a newline-plus-indentation prefix. -/
theorem skipWs_newlineIndent (ind lvl : Nat) (s : List Char) :
    skipWs (newlineIndent ind lvl ++ s) = skipWs s :=
  skipWs_append_of_ws (newlineIndent_ws ind lvl) s

/-- A digit differs from any non-digit character. -/
theorem ne_of_isDigit {c x : Char} (hc : c.isDigit = true) (hx : x.isDigit = false) :
    c ≠ x := by
  intro he
  rw [he, hx] at hc
  cases hc

/-- Hexadecimal digits decode their own encoding. -/
theorem hexVal_hexDigitChar : ∀ k, k < 16 → hexVal? (hexDigitChar k) = some k := by
  decide

/-- Decimal digit characters are digits and decode their own encoding. -/
theorem digitChar_spec : ∀ k, k < 10 →
    (digitChar k).isDigit = true ∧ (digitChar k).toNat - 48 = k := by
  decide

/-! ## Round-trip lemmas: strings -/

/-- The string scanner returns at a closing quote. -/
theorem parseStringBody_quote (s : List Char) :
    parseStringBody ('"' :: s) = some ([], s) := by
  rw [parseStringBody.eq_def]
  simp

/-- The string scanner resolves a single-character escape. -/
theorem parseStringBody_esc {e ch : Char} (he : unescapeChar? e = some ch)
    (s : List Char) :
    parseStringBody ('\\' :: e :: s) =
      match parseStringBody s with
      | some (cs, rest) => some (ch :: cs, rest)
      | none => none := by
  have hu : e ≠ 'u' := by
    intro h
    rw [h] at he
    simp [unescapeChar?] at he
  rw [parseStringBody.eq_def]
  simp [hu, he]

/-- The string scanner resolves a `\u00XX` escape below the surrogate
range. -/
theorem parseStringBody_u {h1 h2 h3 h4 : Char} {a b c4 d : Nat}
    (ha : hexVal? h1 = some a) (hb : hexVal? h2 = some b)
    (hc : hexVal? h3 = some c4) (hd : hexVal? h4 = some d)
    (hlt : ((a * 16 + b) * 16 + c4) * 16 + d < 55296) (s : List Char) :
    parseStringBody ('\\' :: 'u' :: h1 :: h2 :: h3 :: h4 :: s) =
      match parseStringBody s with
      | some (cs, rest) =>
        some (Char.ofNat (((a * 16 + b) * 16 + c4) * 16 + d) :: cs, rest)
      | none => none := by
  rw [parseStringBody.eq_def]
  simp [ha, hb, hc, hd, Or.inl hlt]

/-- The string scanner passes a plain (unescaped, non-control) character
through. -/
theorem parseStringBody_lit {c : Char} (h1 : c ≠ '"') (h2 : c ≠ '\\')
    (h3 : 32 ≤ c.toNat) (s : List Char) :
    parseStringBody (c :: s) =
      match parseStringBody s with
      | some (cs, rest) => some (c :: cs, rest)
      | none => none := by
  rw [parseStringBody.eq_def]
  simp [h1, h2, Nat.not_lt.mpr h3]

/-- A string body, escaped by the serializer and followed by the closing
quote, is scanned back to exactly the original characters. -/
theorem parseStringBody_escape (cs : List Char) (rest : List Char) :
    parseStringBody (escapeList cs ++ '"' :: rest) = some (cs, rest) := by
  induction cs with
  | nil => simp [escapeList, parseStringBody_quote]
  | cons c t ih =>
    have hesc : escapeList (c :: t) = escapeChar c ++ escapeList t := by
      simp [escapeList]
    rw [hesc, List.append_assoc]
    unfold escapeChar
    by_cases h1 : c = '"'
    · rw [if_pos h1, h1]
      simp [parseStringBody_esc (show unescapeChar? '"' = some '"' from rfl), ih]
    rw [if_neg h1]
    by_cases h2 : c = '\\'
    · rw [if_pos h2, h2]
      simp [parseStringBody_esc (show unescapeChar? '\\' = some '\\' from rfl), ih]
    rw [if_neg h2]
    by_cases h3 : c = '\n'
    · rw [if_pos h3, h3]
      simp [parseStringBody_esc (show unescapeChar? 'n' = some '\n' from rfl), ih]
    rw [if_neg h3]
    by_cases h4 : c = '\r'
    · rw [if_pos h4, h4]
      simp [parseStringBody_esc (show unescapeChar? 'r' = some '\r' from rfl), ih]
    rw [if_neg h4]
    by_cases h5 : c = '\t'
    · rw [if_pos h5, h5]
      simp [parseStringBody_esc (show unescapeChar? 't' = some '\t' from rfl), ih]
    rw [if_neg h5]
    by_cases h6 : c.toNat = 8
    · rw [if_pos h6]
      have hc : Char.ofNat 8 = c := by rw [h6.symm, Char.ofNat_toNat]
      simp [parseStringBody_esc
        (show unescapeChar? 'b' = some (Char.ofNat 8) from rfl), ih]
      exact hc
    rw [if_neg h6]
    by_cases h7 : c.toNat = 12
    · rw [if_pos h7]
      have hc : Char.ofNat 12 = c := by rw [h7.symm, Char.ofNat_toNat]
      simp [parseStringBody_esc
        (show unescapeChar? 'f' = some (Char.ofNat 12) from rfl), ih]
      exact hc
    rw [if_neg h7]
    by_cases h8 : c.toNat < 32
    · rw [if_pos h8]
      have hhi : c.toNat / 16 < 16 := by omega
      have hlo : c.toNat % 16 < 16 := by omega
      have hv : ((0 * 16 + 0) * 16 + c.toNat / 16) * 16 + c.toNat % 16 = c.toNat := by
        omega
      have hlt : ((0 * 16 + 0) * 16 + c.toNat / 16) * 16 + c.toNat % 16 < 55296 := by
        omega
      have := parseStringBody_u (show hexVal? '0' = some 0 from rfl)
        (show hexVal? '0' = some 0 from rfl)
        (hexVal_hexDigitChar _ hhi) (hexVal_hexDigitChar _ hlo) hlt
        (escapeList t ++ '"' :: rest)
      simp only [List.cons_append, List.nil_append] at this ⊢
      rw [this, ih, hv, Char.ofNat_toNat]
    · rw [if_neg h8]
      simp only [List.cons_append, List.nil_append]
      rw [parseStringBody_lit h1 h2 (by omega) _, ih]

/-! ## Round-trip lemmas: numbers -/

/-- The digit scanner consumes exactly an all-digit prefix when what
follows does not start with a digit. -/
theorem parseDigits_append {ds : List Char} (hds : ∀ c, c ∈ ds → c.isDigit = true)
    {rest : List Char} (hrest : headNotDigit rest = true) (acc : Nat) :
    parseDigits acc (ds ++ rest) =
      (ds.foldl (fun a c => a * 10 + (c.toNat - 48)) acc, rest) := by
  induction ds generalizing acc with
  | nil =>
    cases rest with
    | nil => rfl
    | cons c r =>
      simp only [headNotDigit, Bool.not_eq_true'] at hrest
      simp [parseDigits, hrest]
  | cons c t ih =>
    have hc := hds c (List.mem_cons_self c t)
    simp only [List.cons_append, parseDigits, hc, if_true, List.foldl_cons]
    exact ih (fun x hx => hds x (List.mem_cons_of_mem c hx)) _

/-- Every character of a decimal rendering is a digit. -/
theorem natChars_all_digits (n : Nat) : ∀ c, c ∈ natChars n → c.isDigit = true := by
  induction n using Nat.strong_induction_on with
  | _ n ih =>
    intro c hc
    rw [natChars.eq_def] at hc
    by_cases h : n < 10
    · rw [if_pos h] at hc
      rw [List.mem_singleton.mp hc]
      exact (digitChar_spec n h).1
    · rw [if_neg h] at hc
      rcases List.mem_append.mp hc with h1 | h1
      · exact ih (n / 10) (Nat.div_lt_self (by omega) (by omega)) c h1
      · rw [List.mem_singleton.mp h1]
        exact (digitChar_spec (n % 10) (Nat.mod_lt n (by omega))).1

/-- A decimal rendering is never empty. -/
theorem natChars_ne_nil (n : Nat) : natChars n ≠ [] := by
  rw [natChars.eq_def]
  by_cases h : n < 10
  · rw [if_pos h]
    exact List.cons_ne_nil _ _
  · rw [if_neg h]
    intro hcontra
    exact absurd (List.append_eq_nil.mp hcontra).2 (List.cons_ne_nil _ _)

/-- Folding the digit accumulator over a decimal rendering recovers the
number. -/
theorem natChars_foldl (n : Nat) : ∀ acc,
    (natChars n).foldl (fun a c => a * 10 + (c.toNat - 48)) acc =
      acc * 10 ^ (natChars n).length + n := by
  induction n using Nat.strong_induction_on with
  | _ n ih =>
    intro acc
    rw [natChars.eq_def]
    by_cases h : n < 10
    · rw [if_pos h]
      simp [(digitChar_spec n h).2]
    · rw [if_neg h]
      rw [List.foldl_append, List.length_append]
      rw [ih (n / 10) (Nat.div_lt_self (by omega) (by omega)) acc]
      simp only [List.foldl_cons, List.foldl_nil, List.length_cons, List.length_nil]
      rw [(digitChar_spec (n % 10) (Nat.mod_lt n (by omega))).2]
      have hmod := Nat.div_add_mod n 10
      rw [pow_succ]
      ring_nf
      omega

/-- The number scanner reads back a rendered natural number. -/
theorem parseNumber_natChars (n : Nat) {rest : List Char}
    (hrest : headNotDigit rest = true) :
    parseNumber (natChars n ++ rest) = some ((n : Int), rest) := by
  obtain ⟨d, ds, hds⟩ : ∃ d ds, natChars n = d :: ds := by
    cases h : natChars n with
    | nil => exact absurd h (natChars_ne_nil n)
    | cons d ds => exact ⟨d, ds, rfl⟩
  have hd : d.isDigit = true :=
    natChars_all_digits n d (hds ▸ List.mem_cons_self d ds)
  have hdm : d ≠ '-' := ne_of_isDigit hd (by decide)
  have hall : ∀ c, c ∈ d :: ds → c.isDigit = true := by
    intro c hc
    exact natChars_all_digits n c (hds ▸ hc)
  rw [hds, List.cons_append, parseNumber.eq_def]
  simp only []
  rw [if_neg hdm, if_pos hd]
  have := parseDigits_append hall hrest 0
  rw [List.cons_append] at this
  rw [this]
  have hfold := natChars_foldl n 0
  rw [hds] at hfold
  simp only [Nat.zero_mul, Nat.zero_add] at hfold
  simp [hfold]

/-- The number scanner reads back a rendered integer. -/
theorem parseNumber_intChars (n : Int) {rest : List Char}
    (hrest : headNotDigit rest = true) :
    parseNumber (intChars n ++ rest) = some (n, rest) := by
  cases n with
  | ofNat m => exact parseNumber_natChars m hrest
  | negSucc m =>
    obtain ⟨d, ds, hds⟩ : ∃ d ds, natChars (m + 1) = d :: ds := by
      cases h : natChars (m + 1) with
      | nil => exact absurd h (natChars_ne_nil (m + 1))
      | cons d ds => exact ⟨d, ds, rfl⟩
    have hd : d.isDigit = true :=
      natChars_all_digits (m + 1) d (hds ▸ List.mem_cons_self d ds)
    have hall : ∀ c, c ∈ d :: ds → c.isDigit = true := by
      intro c hc
      exact natChars_all_digits (m + 1) c (hds ▸ hc)
    simp only [intChars, hds, List.cons_append, parseNumber.eq_def]
    rw [if_pos trivial, if_pos hd]
    have := parseDigits_append hall hrest 0
    rw [List.cons_append] at this
    rw [this]
    have hfold := natChars_foldl (m + 1) 0
    rw [hds] at hfold
    simp only [Nat.zero_mul, Nat.zero_add] at hfold
    simp [hfold, Int.negSucc_eq]

/-! ## Round-trip lemmas: structure -/

/-- Rebuilding a string from its character data is the identity. -/
theorem strMk_data (s : String) : String.mk s.data = s := rfl

/-- A digit is not a whitespace character. -/
theorem isWsChar_eq_false_of_isDigit {c : Char} (h : c.isDigit = true) :
    isWsChar c = false := by
  have h1 : c ≠ ' ' := ne_of_isDigit h (by decide)
  have h2 : c ≠ '\t' := ne_of_isDigit h (by decide)
  have h3 : c ≠ '\n' := ne_of_isDigit h (by decide)
  have h4 : c ≠ '\r' := ne_of_isDigit h (by decide)
  simp [isWsChar, h1, h2, h3, h4]

/-- The first character of any rendered value exists, is not whitespace,
and is not a closing bracket or closing brace. -/
theorem renderJ_head (ind lvl : Nat) (j : J) :
    ∃ c cs, renderJ ind lvl j = c :: cs ∧ isWsChar c = false ∧
      c ≠ ']' ∧ c ≠ rbrace := by
  have hgood : ∀ c : Char, (isWsChar c || c == ']' || c == rbrace) = false →
      isWsChar c = false ∧ c ≠ ']' ∧ c ≠ rbrace := by
    intro c h
    simp only [Bool.or_eq_false_iff, beq_eq_false_iff_ne] at h
    exact ⟨h.1.1, h.1.2, h.2⟩
  cases j with
  | null => exact ⟨'n', _, rfl, hgood _ (by decide)⟩
  | bool b =>
    cases b with
    | true => exact ⟨'t', _, rfl, hgood _ (by decide)⟩
    | false => exact ⟨'f', _, rfl, hgood _ (by decide)⟩
  | num n =>
    cases n with
    | ofNat m =>
      obtain ⟨d, ds, hds⟩ : ∃ d ds, natChars m = d :: ds := by
        cases h : natChars m with
        | nil => exact absurd h (natChars_ne_nil m)
        | cons d ds => exact ⟨d, ds, rfl⟩
      have hd : d.isDigit = true :=
        natChars_all_digits m d (hds ▸ List.mem_cons_self d ds)
      refine ⟨d, ds, by simp [renderJ, intChars, hds], ?_, ?_, ?_⟩
      · exact isWsChar_eq_false_of_isDigit hd
      · exact ne_of_isDigit hd (by decide)
      · exact ne_of_isDigit hd (by decide)
    | negSucc m =>
      exact ⟨'-', natChars (m + 1), by simp [renderJ, intChars], hgood _ (by decide)⟩
  | str s =>
    exact ⟨'"', escapeList s.data ++ ['"'], by simp [renderJ, renderString],
      hgood _ (by decide)⟩
  | arr xs =>
    cases xs with
    | nil => exact ⟨'[', [']'], rfl, hgood _ (by decide)⟩
    | cons x t =>
      exact ⟨'[', newlineIndent ind (lvl + 1) ++ (renderItems ind (lvl + 1) (x :: t) ++
          (newlineIndent ind lvl ++ [']'])),
        by simp [renderJ], hgood _ (by decide)⟩
  | obj kvs =>
    cases kvs with
    | nil => exact ⟨lbrace, [rbrace], rfl, hgood _ (by decide)⟩
    | cons kv t =>
      exact ⟨lbrace, newlineIndent ind (lvl + 1) ++ (renderMembers ind (lvl + 1) (kv :: t) ++
          (newlineIndent ind lvl ++ [rbrace])),
        by simp [renderJ], hgood _ (by decide)⟩

/-- A leading all-whitespace prefix does not change what a value parse
returns. -/
theorem parseVal_ws_lead (fuel : Nat) {ws : List Char}
    (hws : ∀ c, c ∈ ws → isWsChar c = true) (s : List Char) :
    parseVal fuel (ws ++ s) = parseVal fuel s := by
  cases fuel with
  | zero => rfl
  | succ f => simp only [parseVal, skipWs_append_of_ws hws]

/-- A leading all-whitespace prefix does not change what the element loop
returns. -/
theorem parseItems_ws_lead (fuel : Nat) {ws : List Char}
    (hws : ∀ c, c ∈ ws → isWsChar c = true) (s : List Char) (acc : List J) :
    parseItems fuel (ws ++ s) acc = parseItems fuel s acc := by
  cases fuel with
  | zero => rfl
  | succ f => simp only [parseItems, parseVal_ws_lead f hws]

/-- A leading all-whitespace prefix does not change what the member loop
returns. -/
theorem parseMembers_ws_lead (fuel : Nat) {ws : List Char}
    (hws : ∀ c, c ∈ ws → isWsChar c = true) (s : List Char)
    (acc : List (String × J)) :
    parseMembers fuel (ws ++ s) acc = parseMembers fuel s acc := by
  cases fuel with
  | zero => rfl
  | succ f => simp only [parseMembers, skipWs_append_of_ws hws]

/-- Fuel budgets are positive. -/
theorem fuelJ_pos (j : J) : 1 ≤ fuelJ j := by
  cases j <;> simp [fuelJ]

/-- Fuel budgets of element lists are positive. -/
theorem fuelArr_pos (xs : List J) : 1 ≤ fuelArr xs := by
  cases xs with
  | nil => simp [fuelArr]
  | cons x t =>
    have := fuelJ_pos x
    simp only [fuelArr]
    omega

/-- Fuel budgets of member lists are positive. -/
theorem fuelObj_pos (kvs : List (String × J)) : 1 ≤ fuelObj kvs := by
  cases kvs with
  | nil => simp [fuelObj]
  | cons kv t =>
    have := fuelJ_pos kv.2
    simp only [fuelObj]
    omega

/-- Building a dict from pairs with pairwise distinct keys keeps the pairs
unchanged. -/
theorem dictFold_aux (pairs : List (String × J)) :
    ∀ acc, nodupKeys (pairs.map Prod.fst) = true →
    (∀ kv, kv ∈ pairs → kv.1 ∉ acc.map Prod.fst) →
    pairs.foldl (fun a kv => dictInsert a kv.1 kv.2) acc = acc ++ pairs := by
  induction pairs with
  | nil => intro acc _ _; simp
  | cons kv rest ih =>
    intro acc hnd hdisj
    simp only [List.map_cons, nodupKeys, Bool.and_eq_true, Bool.not_eq_true'] at hnd
    simp only [List.foldl_cons]
    rw [dictInsert_of_not_mem kv.2 (hdisj kv (List.mem_cons_self kv rest))]
    rw [ih (acc ++ [(kv.1, kv.2)]) hnd.2]
    · simp
    · intro kv2 hkv2
      rw [List.map_append, List.mem_append]
      rintro (hin | hsingle)
      · exact hdisj kv2 (List.mem_cons_of_mem kv hkv2) hin
      · simp only [List.map_cons, List.map_nil, List.mem_singleton] at hsingle
        have hmem : kv2.1 ∈ rest.map Prod.fst := List.mem_map_of_mem Prod.fst hkv2
        rw [hsingle] at hmem
        have : (rest.map Prod.fst).contains kv.1 = true := List.elem_eq_true_of_mem hmem
        rw [this] at hnd
        cases hnd.1

/-- `dict(pairs)` is the identity on pairs with pairwise distinct keys. -/
theorem dictFold_nodup {pairs : List (String × J)}
    (h : nodupKeys (pairs.map Prod.fst) = true) : dictFold pairs = pairs := by
  unfold dictFold
  rw [dictFold_aux pairs [] h (by intro kv _ hc; cases hc)]
  simp

/-- A single leading whitespace character does not change what a value
parse returns. -/
theorem parseVal_ws_cons (fuel : Nat) {c : Char} (hc : isWsChar c = true)
    (s : List Char) : parseVal fuel (c :: s) = parseVal fuel s := by
  cases fuel with
  | zero => rfl
  | succ f => simp only [parseVal, skipWs_cons, hc, if_true]

/-! ## Dispatch lemmas for the value parser -/

/-- The value parser on an opening bracket. -/
theorem parseVal_lbracket (f : Nat) (r : List Char) :
    parseVal (f + 1) ('[' :: r) =
      (match skipWs r with
       | [] => none
       | c2 :: r2 => if c2 = ']' then some (.arr [], r2) else parseItems f (c2 :: r2) []) := by
  simp only [parseVal]
  rw [skipWs_cons_of_not_ws (by decide)]
  simp [show ('[' : Char) ≠ lbrace from by decide]

/-- The value parser on an opening brace. -/
theorem parseVal_lbrace (f : Nat) (r : List Char) :
    parseVal (f + 1) (lbrace :: r) =
      (match skipWs r with
       | [] => none
       | c2 :: r2 =>
         if c2 = rbrace then some (.obj [], r2) else parseMembers f (c2 :: r2) []) := by
  simp only [parseVal]
  rw [skipWs_cons_of_not_ws (by decide)]
  simp

/-- The value parser on an opening quote. -/
theorem parseVal_quote (f : Nat) (r : List Char) :
    parseVal (f + 1) ('"' :: r) =
      (match parseStringBody r with
       | some (cs, rest) => some (.str (String.mk cs), rest)
       | none => none) := by
  simp only [parseVal]
  rw [skipWs_cons_of_not_ws (by decide)]
  simp [show ('"' : Char) ≠ lbrace from by decide]

/-- The value parser on the head of `true`. -/
theorem parseVal_t (f : Nat) (r : List Char) :
    parseVal (f + 1) ('t' :: r) =
      (match r with
       | 'r' :: 'u' :: 'e' :: rest => some (.bool true, rest)
       | _ => none) := by
  simp only [parseVal]
  rw [skipWs_cons_of_not_ws (by decide)]
  simp [show ('t' : Char) ≠ lbrace from by decide]

/-- The value parser on the head of `false`. -/
theorem parseVal_f (f : Nat) (r : List Char) :
    parseVal (f + 1) ('f' :: r) =
      (match r with
       | 'a' :: 'l' :: 's' :: 'e' :: rest => some (.bool false, rest)
       | _ => none) := by
  simp only [parseVal]
  rw [skipWs_cons_of_not_ws (by decide)]
  simp [show ('f' : Char) ≠ lbrace from by decide]

/-- The value parser on the head of `null`. -/
theorem parseVal_n (f : Nat) (r : List Char) :
    parseVal (f + 1) ('n' :: r) =
      (match r with
       | 'u' :: 'l' :: 'l' :: rest => some (.null, rest)
       | _ => none) := by
  simp only [parseVal]
  rw [skipWs_cons_of_not_ws (by decide)]
  simp [show ('n' : Char) ≠ lbrace from by decide]

/-- The value parser on a digit. -/
theorem parseVal_digit (f : Nat) {c : Char} (hc : c.isDigit = true) (r : List Char) :
    parseVal (f + 1) (c :: r) =
      (match parseNumber (c :: r) with
       | some (n, rest) => some (.num n, rest)
       | none => none) := by
  simp only [parseVal]
  rw [skipWs_cons_of_not_ws (isWsChar_eq_false_of_isDigit hc)]
  simp [ne_of_isDigit hc (show Char.isDigit lbrace = false from by decide),
    ne_of_isDigit hc (show Char.isDigit '[' = false from by decide),
    ne_of_isDigit hc (show Char.isDigit '"' = false from by decide),
    ne_of_isDigit hc (show Char.isDigit 't' = false from by decide),
    ne_of_isDigit hc (show Char.isDigit 'f' = false from by decide),
    ne_of_isDigit hc (show Char.isDigit 'n' = false from by decide)]

/-- The value parser on a minus sign. -/
theorem parseVal_minus (f : Nat) (r : List Char) :
    parseVal (f + 1) ('-' :: r) =
      (match parseNumber ('-' :: r) with
       | some (n, rest) => some (.num n, rest)
       | none => none) := by
  simp only [parseVal]
  rw [skipWs_cons_of_not_ws (by decide)]
  simp [show ('-' : Char) ≠ lbrace from by decide]

/-- The member loop on a quote-headed input: key string, colon, value,
then the separator decision. -/
theorem parseMembers_quote (f : Nat) (r : List Char) (acc : List (String × J)) :
    parseMembers (f + 1) ('"' :: r) acc =
      (match parseStringBody r with
       | none => none
       | some (kcs, r2) =>
         match skipWs r2 with
         | [] => none
         | c3 :: r3 =>
           if c3 = ':' then
             match parseVal f r3 with
             | none => none
             | some (v, r4) =>
               match skipWs r4 with
               | [] => none
               | c5 :: r5 =>
                 if c5 = ',' then parseMembers f r5 (acc ++ [(String.mk kcs, v)])
                 else if c5 = rbrace then
                   some (.obj (dictFold (acc ++ [(String.mk kcs, v)])), r5)
                 else none
           else none) := by
  simp only [parseMembers]
  rw [skipWs_cons_of_not_ws (by decide)]
  rfl

/-- A pair component is smaller than any cons cell holding the pair. -/
theorem sizeOf_pair_snd_lt (kv : String × J) (n : Nat) :
    sizeOf kv.2 < 1 + sizeOf kv + n := by
  obtain ⟨a, b⟩ := kv
  simp
  omega

/-! ## The main round-trip induction -/

mutual

/-- The parser reads a rendered well-formed value back, leaving exactly the
trailing input (provided that input does not start with a digit, so that
the number scanner stops at the value boundary). -/
theorem parseVal_render (ind lvl fuel : Nat) (j : J) (hwf : wfJ j = true)
    (hfuel : fuelJ j ≤ fuel) (rest : List Char)
    (hrest : headNotDigit rest = true) :
    parseVal fuel (renderJ ind lvl j ++ rest) = some (j, rest) := by
  cases fuel with
  | zero => exact absurd hfuel (by have := fuelJ_pos j; omega)
  | succ f =>
    cases j with
    | null =>
      simp only [renderJ, List.cons_append, List.nil_append]
      rw [parseVal_n]
      rfl
    | bool b =>
      cases b with
      | true =>
        simp only [renderJ, List.cons_append, List.nil_append]
        rw [parseVal_t]
        rfl
      | false =>
        simp only [renderJ, List.cons_append, List.nil_append]
        rw [parseVal_f]
        rfl
    | num n =>
      cases n with
      | ofNat m =>
        obtain ⟨d, ds, hds⟩ : ∃ d ds, natChars m = d :: ds := by
          cases h : natChars m with
          | nil => exact absurd h (natChars_ne_nil m)
          | cons d ds => exact ⟨d, ds, rfl⟩
        have hd : d.isDigit = true :=
          natChars_all_digits m d (hds ▸ List.mem_cons_self d ds)
        have hpn := parseNumber_natChars m hrest
        rw [hds, List.cons_append] at hpn
        simp only [renderJ, intChars, hds, List.cons_append]
        rw [parseVal_digit f hd, hpn]
        rfl
      | negSucc m =>
        have hpn := parseNumber_intChars (Int.negSucc m) hrest
        simp only [intChars, List.cons_append] at hpn
        simp only [renderJ, intChars, List.cons_append]
        rw [parseVal_minus, hpn]
    | str s =>
      simp only [renderJ, renderString, List.cons_append, List.append_assoc,
        List.nil_append]
      rw [parseVal_quote, parseStringBody_escape]
    | arr xs =>
      cases xs with
      | nil =>
        simp only [renderJ, List.cons_append, List.nil_append]
        rw [parseVal_lbracket]
        rw [skipWs_cons_of_not_ws (by decide)]
        rfl
      | cons x t =>
        have hwf' : wfArr (x :: t) = true := hwf
        have hfuel' : fuelArr (x :: t) ≤ f := by
          simp only [fuelJ] at hfuel
          omega
        simp only [renderJ, List.cons_append, List.append_assoc, List.nil_append]
        rw [parseVal_lbracket]
        rw [skipWs_newlineIndent]
        obtain ⟨c0, cs0, hx0, hnws0, hnrb0, _⟩ := renderJ_head ind (lvl + 1) x
        have hitems : renderItems ind (lvl + 1) (x :: t) ++
            (newlineIndent ind lvl ++ (']' :: rest)) =
            c0 :: (cs0 ++
              ((if t.isEmpty then [] else
                (',' :: newlineIndent ind (lvl + 1)) ++ renderItems ind (lvl + 1) t) ++
              (newlineIndent ind lvl ++ (']' :: rest)))) := by
          simp [renderItems, hx0, List.append_assoc]
        rw [hitems, skipWs_cons_of_not_ws hnws0]
        simp only [hnrb0, if_false]
        rw [← hitems]
        rw [parseItems_render ind (lvl + 1) lvl f x t hwf' hfuel' [] rest]
        simp
    | obj kvs =>
      cases kvs with
      | nil =>
        simp only [renderJ, List.cons_append, List.nil_append]
        rw [parseVal_lbrace]
        rw [skipWs_cons_of_not_ws (by decide)]
        rfl
      | cons kv t =>
        have hnd : nodupKeys ((kv :: t).map Prod.fst) = true := by
          simp only [wfJ, Bool.and_eq_true] at hwf
          exact hwf.1
        have hwf' : wfObj (kv :: t) = true := by
          simp only [wfJ, Bool.and_eq_true] at hwf
          exact hwf.2
        have hfuel' : fuelObj (kv :: t) ≤ f := by
          simp only [fuelJ] at hfuel
          omega
        simp only [renderJ, List.cons_append, List.append_assoc, List.nil_append]
        rw [parseVal_lbrace]
        rw [skipWs_newlineIndent]
        have hmem : renderMembers ind (lvl + 1) (kv :: t) ++
            (newlineIndent ind lvl ++ (rbrace :: rest)) =
            '"' :: ((escapeList kv.1.data ++
              ('"' :: (':' :: (' ' :: renderJ ind (lvl + 1) kv.2)))) ++
              ((if t.isEmpty then [] else
                (',' :: newlineIndent ind (lvl + 1)) ++ renderMembers ind (lvl + 1) t) ++
              (newlineIndent ind lvl ++ (rbrace :: rest)))) := by
          simp [renderMembers, renderString, List.append_assoc]
        rw [hmem, skipWs_cons_of_not_ws (by decide)]
        simp only [show ('"' : Char) ≠ rbrace from by decide, if_false]
        rw [← hmem]
        rw [parseMembers_render ind (lvl + 1) lvl f kv t hwf' hfuel' [] rest]
        rw [List.nil_append, dictFold_nodup hnd]
termination_by sizeOf j

/-- The element loop reads back a rendered non-empty element list followed
by the closing bracket of its array. -/
theorem parseItems_render (ind lvlI lvlC fuel : Nat) (x : J) (xs : List J)
    (hwf : wfArr (x :: xs) = true) (hfuel : fuelArr (x :: xs) ≤ fuel)
    (acc : List J) (rest : List Char) :
    parseItems fuel
      (renderItems ind lvlI (x :: xs) ++
        (newlineIndent ind lvlC ++ (']' :: rest))) acc =
      some (.arr (acc ++ (x :: xs)), rest) := by
  have hwx : wfJ x = true := by
    simp only [wfArr, Bool.and_eq_true] at hwf
    exact hwf.1
  have hwxs : wfArr xs = true := by
    simp only [wfArr, Bool.and_eq_true] at hwf
    exact hwf.2
  cases fuel with
  | zero =>
    exfalso
    have h1 := fuelJ_pos x
    have h2 := fuelArr_pos xs
    simp only [fuelArr] at hfuel
    omega
  | succ f =>
    cases xs with
    | nil =>
      have hfx : fuelJ x ≤ f := by
        simp only [fuelArr] at hfuel
        omega
      have hx := parseVal_render ind lvlI f x hwx hfx
        (newlineIndent ind lvlC ++ (']' :: rest)) (by rfl)
      simp only [renderItems, List.isEmpty_nil, if_true, List.append_nil]
      simp only [parseItems, hx]
      rw [skipWs_newlineIndent, skipWs_cons_of_not_ws (by decide)]
      rfl
    | cons y ys =>
      have hfx : fuelJ x ≤ f := by
        simp only [fuelArr] at hfuel
        have h1 := fuelJ_pos y
        have h2 := fuelArr_pos ys
        omega
      have hfr : fuelArr (y :: ys) ≤ f := by
        simp only [fuelArr] at hfuel ⊢
        have := fuelJ_pos x
        omega
      have hri : renderItems ind lvlI (x :: y :: ys) =
          renderJ ind lvlI x ++
            ((',' :: newlineIndent ind lvlI) ++ renderItems ind lvlI (y :: ys)) := by
        simp [renderItems]
      rw [hri]
      simp only [List.append_assoc, List.cons_append]
      have hx := parseVal_render ind lvlI f x hwx hfx
        (',' :: (newlineIndent ind lvlI ++ (renderItems ind lvlI (y :: ys) ++
          (newlineIndent ind lvlC ++ (']' :: rest))))) (by rfl)
      simp only [parseItems, hx]
      rw [skipWs_cons_of_not_ws (by decide)]
      simp only [reduceIte]
      rw [parseItems_ws_lead f (newlineIndent_ws ind lvlI)]
      rw [parseItems_render ind lvlI lvlC f y ys hwxs hfr (acc ++ [x]) rest]
      simp
termination_by sizeOf (x :: xs)

/-- The member loop reads back a rendered non-empty member list followed by
the closing brace of its object; the collected pairs go through
`dict(...)`. -/
theorem parseMembers_render (ind lvlI lvlC fuel : Nat) (kv : String × J)
    (kvs : List (String × J)) (hwf : wfObj (kv :: kvs) = true)
    (hfuel : fuelObj (kv :: kvs) ≤ fuel) (acc : List (String × J))
    (rest : List Char) :
    parseMembers fuel
      (renderMembers ind lvlI (kv :: kvs) ++
        (newlineIndent ind lvlC ++ (rbrace :: rest))) acc =
      some (.obj (dictFold (acc ++ (kv :: kvs))), rest) := by
  have hwv : wfJ kv.2 = true := by
    simp only [wfObj, Bool.and_eq_true] at hwf
    exact hwf.1
  have hwkvs : wfObj kvs = true := by
    simp only [wfObj, Bool.and_eq_true] at hwf
    exact hwf.2
  cases fuel with
  | zero =>
    exfalso
    have h1 := fuelJ_pos kv.2
    have h2 := fuelObj_pos kvs
    simp only [fuelObj] at hfuel
    omega
  | succ f =>
    cases kvs with
    | nil =>
      have hfv : fuelJ kv.2 ≤ f := by
        simp only [fuelObj] at hfuel
        omega
      have hmem : renderMembers ind lvlI [kv] ++
          (newlineIndent ind lvlC ++ (rbrace :: rest)) =
          '"' :: (escapeList kv.1.data ++
            ('"' :: (':' :: (' ' :: (renderJ ind lvlI kv.2 ++
              (newlineIndent ind lvlC ++ (rbrace :: rest))))))) := by
        simp [renderMembers, renderString, List.append_assoc]
      have hx := parseVal_render ind lvlI f kv.2 hwv hfv
        (newlineIndent ind lvlC ++ (rbrace :: rest)) (by rfl)
      rw [hmem, parseMembers_quote]
      simp only [parseStringBody_escape,
        skipWs_cons_of_not_ws (show isWsChar ':' = false from by decide),
        reduceIte,
        parseVal_ws_cons f (show isWsChar ' ' = true from by decide),
        hx, skipWs_newlineIndent,
        skipWs_cons_of_not_ws (show isWsChar rbrace = false from by decide),
        show rbrace ≠ ',' from by decide, if_false]
    | cons kw t =>
      have hfv : fuelJ kv.2 ≤ f := by
        simp only [fuelObj] at hfuel
        have h1 := fuelJ_pos kw.2
        have h2 := fuelObj_pos t
        omega
      have hfr : fuelObj (kw :: t) ≤ f := by
        simp only [fuelObj] at hfuel ⊢
        have := fuelJ_pos kv.2
        omega
      have hmem : renderMembers ind lvlI (kv :: kw :: t) ++
          (newlineIndent ind lvlC ++ (rbrace :: rest)) =
          '"' :: (escapeList kv.1.data ++
            ('"' :: (':' :: (' ' :: (renderJ ind lvlI kv.2 ++
              (',' :: (newlineIndent ind lvlI ++ (renderMembers ind lvlI (kw :: t) ++
                (newlineIndent ind lvlC ++ (rbrace :: rest)))))))))) := by
        simp [renderMembers, renderString, List.append_assoc]
      have hx := parseVal_render ind lvlI f kv.2 hwv hfv
        (',' :: (newlineIndent ind lvlI ++ (renderMembers ind lvlI (kw :: t) ++
          (newlineIndent ind lvlC ++ (rbrace :: rest))))) (by rfl)
      rw [hmem, parseMembers_quote]
      simp only [parseStringBody_escape,
        skipWs_cons_of_not_ws (show isWsChar ':' = false from by decide),
        reduceIte,
        parseVal_ws_cons f (show isWsChar ' ' = true from by decide),
        hx,
        skipWs_cons_of_not_ws (show isWsChar ',' = false from by decide)]
      rw [parseMembers_ws_lead f (newlineIndent_ws ind lvlI)]
      rw [parseMembers_render ind lvlI lvlC f kw t hwkvs hfr
        (acc ++ [(String.mk kv.1.data, kv.2)]) rest]
      simp [strMk_data]
termination_by sizeOf (kv :: kvs)
decreasing_by
  all_goals simp_wf
  all_goals subst_vars
  all_goals first
    | omega
    | (simp only [List.cons.sizeOf_spec]; omega)
    | exact sizeOf_pair_snd_lt _ _

end

/-! ## Fuel sufficiency: the rendering is longer than the budget it needs -/

mutual

/-- The fuel budget of a value is at most the length of its rendering. -/
theorem fuelJ_le_renderJ (ind lvl : Nat) (j : J) :
    fuelJ j ≤ (renderJ ind lvl j).length := by
  cases j with
  | null => simp [fuelJ, renderJ]
  | bool b => cases b <;> simp [fuelJ, renderJ]
  | num n =>
    cases n with
    | ofNat m =>
      have hne := natChars_ne_nil m
      have hlen : 0 < (natChars m).length := List.length_pos.mpr hne
      simp only [fuelJ, renderJ, intChars]
      omega
    | negSucc m =>
      simp only [fuelJ, renderJ, intChars, List.length_cons]
      omega
  | str s =>
    simp only [fuelJ, renderJ, renderString, List.length_append, List.length_cons]
    omega
  | arr xs =>
    cases xs with
    | nil => simp [fuelJ, fuelArr, renderJ]
    | cons x t =>
      have h := fuelArr_le_renderItems ind (lvl + 1) x t
      simp only [fuelJ, renderJ, List.length_append, List.length_cons,
        newlineIndent, List.length_replicate]
      omega
  | obj kvs =>
    cases kvs with
    | nil => simp [fuelJ, fuelObj, renderJ]
    | cons kv t =>
      have h := fuelObj_le_renderMembers ind (lvl + 1) kv t
      simp only [fuelJ, renderJ, List.length_append, List.length_cons,
        newlineIndent, List.length_replicate]
      omega

termination_by sizeOf j

/-- The fuel budget of an element list is within one of the length of its
rendering. -/
theorem fuelArr_le_renderItems (ind lvl : Nat) (x : J) (xs : List J) :
    fuelArr (x :: xs) ≤ (renderItems ind lvl (x :: xs)).length + 1 := by
  cases xs with
  | nil =>
    have h := fuelJ_le_renderJ ind lvl x
    simp only [fuelArr, renderItems, List.isEmpty_nil, if_true, List.append_nil]
    omega
  | cons y ys =>
    have h1 := fuelJ_le_renderJ ind lvl x
    have h2 := fuelArr_le_renderItems ind lvl y ys
    have hri : renderItems ind lvl (x :: y :: ys) =
        renderJ ind lvl x ++
          ((',' :: newlineIndent ind lvl) ++ renderItems ind lvl (y :: ys)) := by
      simp [renderItems]
    rw [hri]
    simp only [fuelArr, List.length_append, List.length_cons] at *
    omega
termination_by sizeOf (x :: xs)

/-- The fuel budget of a member list is within one of the length of its
rendering. -/
theorem fuelObj_le_renderMembers (ind lvl : Nat) (kv : String × J)
    (kvs : List (String × J)) :
    fuelObj (kv :: kvs) ≤ (renderMembers ind lvl (kv :: kvs)).length + 1 := by
  cases kvs with
  | nil =>
    have h := fuelJ_le_renderJ ind lvl kv.2
    have hrm : renderMembers ind lvl [kv] =
        (renderString kv.1 ++ (':' :: ' ' :: renderJ ind lvl kv.2)) := by
      simp [renderMembers]
    rw [hrm]
    simp only [fuelObj, List.length_append, List.length_cons]
    omega
  | cons kw t =>
    have h1 := fuelJ_le_renderJ ind lvl kv.2
    have h2 := fuelObj_le_renderMembers ind lvl kw t
    have hrm : renderMembers ind lvl (kv :: kw :: t) =
        (renderString kv.1 ++ (':' :: ' ' :: renderJ ind lvl kv.2)) ++
          ((',' :: newlineIndent ind lvl) ++ renderMembers ind lvl (kw :: t)) := by
      simp [renderMembers]
    rw [hrm]
    simp only [fuelObj, List.length_append, List.length_cons] at *
    omega
termination_by sizeOf (kv :: kvs)
decreasing_by
  all_goals simp_wf
  all_goals subst_vars
  all_goals first
    | omega
    | exact sizeOf_pair_snd_lt _ _

end

/-! ## C6: round-trip serialization -/

/-- C6: for any well-formed JSON-native data (every dict with pairwise
distinct keys, as Python dicts guarantee), re-parsing the string produced
by `convert_to_json` returns exactly the original data, at any numeric
indent width (the source default is 2). -/
theorem C6_round_trip (ind : Nat) (j : J) (hwf : wfJ j = true) :
    jsonLoads (convertToJson ind j) = some j := by
  unfold jsonLoads convertToJson
  have hdata : (String.mk (renderJ ind 0 j)).data = renderJ ind 0 j := rfl
  rw [hdata]
  have hfuel : fuelJ j ≤ (renderJ ind 0 j).length + 1 := by
    have := fuelJ_le_renderJ ind 0 j
    omega
  have hp := parseVal_render ind 0 ((renderJ ind 0 j).length + 1) j hwf hfuel [] rfl
  rw [List.append_nil] at hp
  rw [hp]
  rfl

/-- C6 witness: the round trip applied to a concrete nested value with a
negative number, escapes in a string, booleans, null, and empty and
nested containers. -/
theorem C6_witness :
    wfJ (J.obj [("a", J.num (-3)),
      ("b", J.arr [J.str "x\ny", J.null, J.bool true, J.num 12]),
      ("c", J.obj []), ("d", J.arr [])]) = true ∧
    jsonLoads (convertToJson 2 (J.obj [("a", J.num (-3)),
      ("b", J.arr [J.str "x\ny", J.null, J.bool true, J.num 12]),
      ("c", J.obj []), ("d", J.arr [])])) =
      some (J.obj [("a", J.num (-3)),
        ("b", J.arr [J.str "x\ny", J.null, J.bool true, J.num 12]),
        ("c", J.obj []), ("d", J.arr [])]) :=
  ⟨rfl, C6_round_trip 2 (J.obj [("a", J.num (-3)),
    ("b", J.arr [J.str "x\ny", J.null, J.bool true, J.num 12]),
    ("c", J.obj []), ("d", J.arr [])]) rfl⟩
